import Mathlib

/-!
# Verification of the YARW core synchronization engine

Shallow embedding of the rsync-style core of the YARW repository
(`src/algorithm/checksum.rs`, `generator.rs`, `sender.rs`, `receiver.rs`,
`src/transport/local.rs`, `src/filter/engine.rs`, `src/protocol/stream.rs`,
`src/protocol/multiplex.rs`) together with proofs and refutations of the
specification's claims.

Bytes are modelled as `Nat` (with `< 256` hypotheses where byte width
matters); 16-bit wrapping arithmetic of the rolling checksum is modelled by
`ZMod 65536`, which is exactly arithmetic modulo 2^16.
-/

namespace YARW

/-- The rolling weak checksum state of `RollingChecksum` in
`src/algorithm/checksum.rs`: two 16-bit wrapping sums `a`, `b` and the
window length `block_size` (a `usize`, modelled as `Nat`). -/
structure RollingChecksum where
  a : ZMod 65536
  b : ZMod 65536
  block_size : Nat
deriving DecidableEq

/-- The loop body of `RollingChecksum::update`: for each byte, wrapping-add
it into `a` and wrapping-add `(data.len() - i) * byte` into `b`.  The weight
`data.len() - i` of an element equals the length of the suffix starting at
that element, which is what the structural recursion passes along. -/
def rcFold : List Nat → ZMod 65536 × ZMod 65536 → ZMod 65536 × ZMod 65536
  | [], ab => ab
  | x :: xs, (a, b) =>
      rcFold xs (a + (x : ZMod 65536), b + (((x :: xs).length : Nat) : ZMod 65536) * (x : ZMod 65536))

/-- `RollingChecksum::new`: zero-initialise and run `update` over the data;
`block_size` is set to `data.len()`. -/
def RollingChecksum.new (data : List Nat) : RollingChecksum :=
  { a := (rcFold data (0, 0)).1, b := (rcFold data (0, 0)).2, block_size := data.length }

/-- `RollingChecksum::roll`: `a ← a - old + new`;
`b ← b - block_size * old + a_new` (all wrapping 16-bit). -/
def RollingChecksum.roll (c : RollingChecksum) (old_byte new_byte : Nat) : RollingChecksum :=
  { a := c.a - (old_byte : ZMod 65536) + (new_byte : ZMod 65536),
    b := c.b - ((c.block_size : Nat) : ZMod 65536) * (old_byte : ZMod 65536)
           + (c.a - (old_byte : ZMod 65536) + (new_byte : ZMod 65536)),
    block_size := c.block_size }

/-- `RollingChecksum::checksum`: `(b << 16) | a` as a 32-bit value. -/
def RollingChecksum.checksum (c : RollingChecksum) : Nat :=
  Nat.lor (c.b.val <<< 16) c.a.val

/-- Initialise over `W[0..L)` and apply `roll` `i` times, step `k` removing
`W[k]` and adding `W[k+L]` (claim C4's iterated-roll process). -/
def rollSteps (W : List Nat) (L : Nat) : Nat → RollingChecksum
  | 0 => RollingChecksum.new (W.take L)
  | i + 1 => (rollSteps W L i).roll (W.getD i 0) (W.getD (i + L) 0)

/-- Plain wrapping sum of the bytes (closed form of the `a` component). -/
def sumA : List Nat → ZMod 65536
  | [] => 0
  | x :: xs => (x : ZMod 65536) + sumA xs

/-- Weighted wrapping sum (closed form of the `b` component): each element
is weighted by the length of the suffix starting at it. -/
def sumB : List Nat → ZMod 65536
  | [] => 0
  | x :: xs => (((x :: xs).length : Nat) : ZMod 65536) * (x : ZMod 65536) + sumB xs

theorem rcFold_eq (l : List Nat) (a b : ZMod 65536) :
    rcFold l (a, b) = (a + sumA l, b + sumB l) := by
  induction l generalizing a b with
  | nil => simp [rcFold, sumA, sumB]
  | cons x xs ih =>
      simp only [rcFold, sumA, sumB, ih, Prod.mk.injEq]
      exact ⟨by ring, by ring⟩

theorem RollingChecksum.new_eq (data : List Nat) :
    RollingChecksum.new data = ⟨sumA data, sumB data, data.length⟩ := by
  simp only [RollingChecksum.new, rcFold_eq, zero_add]

theorem sumA_append_single (t : List Nat) (y : Nat) :
    sumA (t ++ [y]) = sumA t + (y : ZMod 65536) := by
  induction t with
  | nil => simp [sumA]
  | cons x xs ih => simp [sumA, ih]; ring

theorem sumB_append_single (t : List Nat) (y : Nat) :
    sumB (t ++ [y]) = sumB t + sumA t + (y : ZMod 65536) := by
  induction t with
  | nil => simp [sumA, sumB]
  | cons x xs ih =>
      rw [List.cons_append, sumB, sumB, ih]
      simp only [sumA, List.length_cons, List.length_append, List.length_singleton,
        List.length_nil]
      push_cast
      ring

/-- Rolling one step from a freshly initialised window `x :: t` with old
byte `x` and new byte `y` gives exactly the fresh checksum of `t ++ [y]`. -/
theorem roll_new (x y : Nat) (t : List Nat) :
    (RollingChecksum.new (x :: t)).roll x y = RollingChecksum.new (t ++ [y]) := by
  simp only [RollingChecksum.new_eq, RollingChecksum.roll, sumA, sumB,
    sumA_append_single, sumB_append_single, List.length_cons, List.length_append,
    List.length_singleton]
  refine congrArg₂ (fun p q => RollingChecksum.mk p q (t.length + 1)) ?_ ?_
  · ring
  · push_cast
    ring

theorem window_cons (W : List Nat) (i L : Nat) (h : i < W.length) :
    (W.drop i).take (L + 1) = W.getD i 0 :: ((W.drop (i + 1)).take L) := by
  rw [List.drop_eq_getElem_cons h, List.take_succ_cons, List.getD_eq_getElem]

theorem window_snoc (W : List Nat) (i L : Nat) (h : i + 1 + L < W.length) :
    (W.drop (i + 1)).take (L + 1) = (W.drop (i + 1)).take L ++ [W.getD (i + 1 + L) 0] := by
  have hlen : L < (W.drop (i + 1)).length := by
    simp only [List.length_drop]; omega
  rw [List.take_succ, List.getElem?_eq_getElem hlen]
  simp only [Option.toList_some]
  congr 1
  rw [List.getElem_drop, List.getD_eq_getElem]

/-- Iterating `roll` `i` times from `W[0..L)` reproduces the fresh
initialisation over `W[i..i+L)`, as full checksum states. -/
theorem rollSteps_eq (W : List Nat) (L i : Nat) (h : i + L ≤ W.length) :
    rollSteps W L i = RollingChecksum.new ((W.drop i).take L) := by
  induction i with
  | zero => simp [rollSteps]
  | succ i ih =>
      have hi : i + L ≤ W.length := by omega
      rw [rollSteps, ih hi]
      cases L with
      | zero =>
          simp only [List.take_zero, Nat.add_zero]
          simp [RollingChecksum.new_eq, RollingChecksum.roll, sumA, sumB]
      | succ L =>
          have hiW : i < W.length := by omega
          have hidx : i + (L + 1) = i + 1 + L := by omega
          rw [window_cons W i L hiW, roll_new, hidx, ← window_snoc W i L (by omega)]

/-- Claim C4. Rolling-checksum consistency: for every byte window `W`,
length `L`, and shift `i` with `i + L ≤ |W|`, the 32-bit weak checksum of a
fresh `RollingChecksum` over `W[i..i+L)` equals the one obtained by
initialising over `W[0..L)` and applying `roll` `i` times (step `k`
removing `W[k]` and adding `W[k+L]`), all component arithmetic being
unsigned 16-bit wrap. -/
theorem rolling_checksum_consistency (W : List Nat) (L i : Nat) (h : i + L ≤ W.length) :
    (rollSteps W L i).checksum = (RollingChecksum.new ((W.drop i).take L)).checksum := by
  rw [rollSteps_eq W L i h]

/-- Witness for C4 at the spec's own scenario 5: `W = "abcdefgh"`, `L = 4`,
`i = 1` (one roll with old `a`, new `e` matches a fresh init over "bcde"). -/
theorem rolling_checksum_consistency_witness :
    1 + 4 ≤ [97, 98, 99, 100, 101, 102, 103, 104].length ∧
      (rollSteps [97, 98, 99, 100, 101, 102, 103, 104] 4 1).checksum =
        (RollingChecksum.new (([97, 98, 99, 100, 101, 102, 103, 104].drop 1).take 4)).checksum :=
  ⟨by decide,
   rolling_checksum_consistency [97, 98, 99, 100, 101, 102, 103, 104] 4 1 (by decide)⟩

/-! ## Block signatures and the delta computer (`generator.rs`, `sender.rs`) -/

/-- `BlockChecksum` from `src/algorithm/generator.rs`: block index, weak
rolling checksum, and strong digest.  The strong digest value is a byte
list; the concrete MD4/MD5/BLAKE2 digest functions live in external crates,
so the development is parametric in a digest function `strong_of`. -/
structure BlockChecksum where
  index : Nat
  weak : Nat
  strong : List Nat
deriving DecidableEq

/-- Plain `B`-chunking of one contiguous byte run: emit a `BlockChecksum`
per `data.take B`, indices increasing, stop on empty.  This is the block
sequence of `Generator::generate_checksums` when every read returns
`min(B, remaining)` bytes: within one buffered 8 KiB segment, or — via the
`BufReader` bypass — for the whole file when `B` is at least the internal
capacity.  `fuel` bounds the recursion; `data.length` is always enough
when `B ≥ 1`. -/
def genAux (B : Nat) (strong_of : List Nat → List Nat) :
    Nat → Nat → List Nat → List BlockChecksum
  | 0, _, _ => []
  | _ + 1, _, [] => []
  | fuel + 1, index, x :: rest =>
      ⟨index, (RollingChecksum.new ((x :: rest).take B)).checksum,
        strong_of ((x :: rest).take B)⟩ ::
        genAux B strong_of fuel (index + 1) ((x :: rest).drop B)

/-- The block sequence the `BufReader`-backed read loop of
`Generator::generate_checksums` produces when `B` is below the reader's
8192-byte internal capacity: each refill pulls `min(8192, remaining)`
bytes from the file, and the per-block `read` then returns
`min(B, bytes left in the internal buffer)` — a **short block** at every
8 KiB boundary when `B` does not divide 8192.  Equivalently, the blocks
are the `B`-chunkings of consecutive 8192-byte segments, with one running
index across all of them. -/
def genSegs (B : Nat) (strong_of : List Nat → List Nat) :
    Nat → Nat → List Nat → List BlockChecksum
  | 0, _, _ => []
  | _ + 1, _, [] => []
  | fuel + 1, index, x :: rest =>
      genAux B strong_of ((x :: rest).take 8192).length index ((x :: rest).take 8192) ++
        genSegs B strong_of fuel
          (index +
            (genAux B strong_of ((x :: rest).take 8192).length index
              ((x :: rest).take 8192)).length)
          ((x :: rest).drop 8192)

/-- `Generator::generate_checksums` on in-memory contents.  With `B = 0`
the Rust loop reads 0 bytes into an empty buffer and breaks immediately.
With `B ≥ 8192` every `BufReader::read` bypasses the internal buffer
(`buf.len() >= capacity`) and returns `min(B, remaining)` straight from
the file, i.e. plain `B`-chunking.  With `0 < B < 8192` the reads go
through the 8192-byte internal buffer and return short counts at its
boundary (`genSegs`). -/
def generate_checksums (B : Nat) (strong_of : List Nat → List Nat) (data : List Nat) :
    List BlockChecksum :=
  if B = 0 then []
  else if 8192 ≤ B then genAux B strong_of data.length 0 data
  else genSegs B strong_of (data.length + 1) 0 data

/-- `DeltaInstruction` from `src/algorithm/delta.rs`. -/
inductive DeltaInstruction where
  | MatchedBlock (index : Nat)
  | LiteralData (data : List Nat)
deriving DecidableEq

/-- The bucket returned by `Sender::build_hash_table`'s map for a given
weak value: the signatures with that weak checksum, in insertion (list)
order.  `HashMap::get` returning `None` corresponds to the empty bucket. -/
def hash_table_bucket (checksums : List BlockChecksum) (weak : Nat) : List BlockChecksum :=
  checksums.filter (fun c => c.weak == weak)

/-- The candidate search of `Sender::compute_delta`:
`candidates.iter().find(|c| c.strong == strong)` over the weak bucket. -/
def find_match (sig : List BlockChecksum) (weak : Nat) (strongv : List Nat) :
    Option BlockChecksum :=
  (hash_table_bucket sig weak).find? (fun c => c.strong == strongv)

/-- The per-iteration weak-checksum update of `Sender::compute_delta`: if a
rolling checksum is live, `roll` it with the outgoing byte `buffer[pos-1]`
and the incoming byte `buffer[pos+B-1]`; otherwise initialise it freshly
over `buffer[pos..pos+B)`. -/
def rollingStep (B : Nat) (buffer : List Nat) (pos : Nat) :
    Option RollingChecksum → RollingChecksum
  | some rc0 => rc0.roll (buffer.getD (pos - 1) 0) (buffer.getD (pos + B - 1) 0)
  | none => RollingChecksum.new ((buffer.drop pos).take B)

/-- The rolling-scan `while pos + block_size <= buffer.len()` loop of
`Sender::compute_delta` (compression disabled, so `compress_and_limit`
returns the literal buffer unchanged).  State: position, pending literal
buffer, optional rolling checksum, emitted instructions.  `fuel` bounds the
recursion; `buffer.length + 1` is always enough when `B ≥ 1`. -/
def deltaLoop (B : Nat) (sig : List BlockChecksum) (strong_of : List Nat → List Nat)
    (buffer : List Nat) :
    Nat → Nat → List Nat → Option RollingChecksum → List DeltaInstruction →
      Nat × List Nat × List DeltaInstruction
  | 0, pos, literal, _, instructions => (pos, literal, instructions)
  | fuel + 1, pos, literal, rolling, instructions =>
      if pos + B ≤ buffer.length then
        match find_match sig (rollingStep B buffer pos rolling).checksum
            (strong_of ((buffer.drop pos).take B)) with
        | some mb =>
            deltaLoop B sig strong_of buffer fuel (pos + B) [] none
              ((if literal.isEmpty then instructions
                else instructions ++ [DeltaInstruction.LiteralData literal]) ++
                [DeltaInstruction.MatchedBlock mb.index])
        | none =>
            deltaLoop B sig strong_of buffer fuel (pos + 1)
              (literal ++ [buffer.getD pos 0]) (some (rollingStep B buffer pos rolling))
              instructions
      else (pos, literal, instructions)

/-- The tail handling of `Sender::compute_delta` (`if pos < buffer.len()`):
weak + strong lookup on the final partial block; on a hit flush the literal
buffer and emit the match, on a miss append the partial block to the
literal buffer.  Returns (literal buffer, instructions). -/
def deltaTail (sig : List BlockChecksum) (strong_of : List Nat → List Nat)
    (buffer : List Nat) :
    Nat × List Nat × List DeltaInstruction → List Nat × List DeltaInstruction
  | (pos, literal, instructions) =>
      if pos < buffer.length then
        match find_match sig (RollingChecksum.new (buffer.drop pos)).checksum
            (strong_of (buffer.drop pos)) with
        | some mb =>
            ([],
              (if literal.isEmpty then instructions
               else instructions ++ [DeltaInstruction.LiteralData literal]) ++
                [DeltaInstruction.MatchedBlock mb.index])
        | none => (literal ++ buffer.drop pos, instructions)
      else (literal, instructions)

/-- The final literal flush of `Sender::compute_delta`. -/
def deltaFlush : List Nat × List DeltaInstruction → List DeltaInstruction
  | (literal, instructions) =>
      if literal.isEmpty then instructions
      else instructions ++ [DeltaInstruction.LiteralData literal]

/-- `Sender::compute_delta` on in-memory source contents, with compression
and bandwidth limiting disabled (`compressor = None`,
`bandwidth_limiter = None`), parametric in the strong digest. -/
def compute_delta (B : Nat) (sig : List BlockChecksum) (strong_of : List Nat → List Nat)
    (buffer : List Nat) : List DeltaInstruction :=
  if buffer.isEmpty then []
  else
    deltaFlush (deltaTail sig strong_of buffer
      (deltaLoop B sig strong_of buffer (buffer.length + 1) 0 [] none []))

/-! ## The receiver's instruction application (`receiver.rs`) -/

/-- One instruction of `Receiver::reconstruct_file`'s loop, as the bytes it
writes: a `MatchedBlock{index}` seeks the reference to `index * B` and
reads up to `B` bytes; a `LiteralData` writes its bytes (compression
disabled, so no decompression). -/
def apply_instruction (base : List Nat) (B : Nat) : DeltaInstruction → List Nat
  | DeltaInstruction.MatchedBlock index => (base.drop (index * B)).take B
  | DeltaInstruction.LiteralData data => data

/-- The byte sequence `Receiver::reconstruct_file` writes for a delta
stream against reference contents `base`. -/
def reconstruct_bytes (base : List Nat) (B : Nat) (delta : List DeltaInstruction) : List Nat :=
  (delta.map (apply_instruction base B)).flatten

/-! ## Round-trip identity (claim C1) -/

theorem reconstruct_append (base : List Nat) (B : Nat) (l : List DeltaInstruction)
    (i : DeltaInstruction) :
    reconstruct_bytes base B (l ++ [i]) =
      reconstruct_bytes base B l ++ apply_instruction base B i := by
  simp [reconstruct_bytes]

theorem take_succ_getD (l : List Nat) (pos : Nat) (h : pos < l.length) :
    l.take (pos + 1) = l.take pos ++ [l.getD pos 0] := by
  rw [List.take_succ, List.getElem?_eq_getElem h]
  simp only [Option.toList_some]
  rw [List.getD_eq_getElem]

theorem find_match_spec (sig : List BlockChecksum) (w : Nat) (v : List Nat)
    (c : BlockChecksum) (h : find_match sig w v = some c) : c ∈ sig ∧ c.strong = v := by
  unfold find_match hash_table_bucket at h
  have hmem := List.mem_of_find?_eq_some h
  have hp := List.find?_some h
  rw [List.mem_filter] at hmem
  exact ⟨hmem.1, by simpa using hp⟩

theorem genAux_strong (B : Nat) (s : List Nat → List Nat) (R : List Nat) (fuel : Nat) :
    ∀ i data, data = R.drop (i * B) →
      ∀ c ∈ genAux B s fuel i data, c.strong = s ((R.drop (c.index * B)).take B) := by
  induction fuel with
  | zero => intro i data _ c hc; simp [genAux] at hc
  | succ fuel ih =>
      intro i data hdata c hc
      cases data with
      | nil => simp [genAux] at hc
      | cons x rest =>
          rw [genAux] at hc
          rcases List.mem_cons.mp hc with hhead | htail
          · rw [hhead]
            simp only
            rw [hdata]
          · exact ih (i + 1) ((x :: rest).drop B)
              (by rw [hdata, List.drop_drop]; congr 1; ring) c htail

theorem genSegs_nil (B : Nat) (s : List Nat → List Nat) (fuel index : Nat) :
    genSegs B s fuel index [] = [] := by
  cases fuel <;> rfl

/-- When the reference fits inside the reader's 8 KiB internal buffer, or
the block size is at least 8 KiB (bypass path), every signature's strong
digest is the digest of the aligned block `R[index*B .. index*B+B)` —
exactly the alignment the receiver's `seek(index * B)` relies on.  Beyond
these conditions the generator's short reads break it, as the concrete
counterexample below shows. -/
theorem generate_checksums_strong_aligned (B : Nat) (s : List Nat → List Nat)
    (R : List Nat) (halign : R.length ≤ 8192 ∨ 8192 ≤ B) :
    ∀ c ∈ generate_checksums B s R, c.strong = s ((R.drop (c.index * B)).take B) := by
  intro c hc
  rw [generate_checksums] at hc
  split at hc
  · simp at hc
  · split at hc
    · exact genAux_strong B s R R.length 0 R (by simp) c hc
    · rcases halign with hlen | hB
      · cases R with
        | nil => simp [genSegs] at hc
        | cons x rest =>
            rw [genSegs] at hc
            have htake : (x :: rest).take 8192 = x :: rest :=
              List.take_of_length_le hlen
            have hdrop : (x :: rest).drop 8192 = [] :=
              List.drop_eq_nil_of_le hlen
            rw [htake, hdrop, genSegs_nil, List.append_nil] at hc
            exact genAux_strong B s (x :: rest) (x :: rest).length 0 (x :: rest)
              (by simp) c hc
      · rename_i hnot
        exact absurd hB hnot

/-- A successful `find_match` against signatures generated from reference
contents `R` identifies, via injectivity of the digest, the exact block of
`R` that equals the scanned window. -/
theorem find_match_block (B : Nat) (strong_of : List Nat → List Nat)
    (hinj : Function.Injective strong_of) (R : List Nat) (sig : List BlockChecksum)
    (hsig : ∀ c ∈ sig, c.strong = strong_of ((R.drop (c.index * B)).take B))
    (w : Nat) (block : List Nat) (mb : BlockChecksum)
    (h : find_match sig w (strong_of block) = some mb) :
    (R.drop (mb.index * B)).take B = block := by
  obtain ⟨hmem, hstrong⟩ := find_match_spec _ _ _ _ h
  exact hinj ((hsig mb hmem).symm.trans hstrong)

theorem reconstruct_flush (R : List Nat) (B : Nat) (instructions : List DeltaInstruction)
    (literal : List Nat) :
    reconstruct_bytes R B
        (if literal.isEmpty then instructions
         else instructions ++ [DeltaInstruction.LiteralData literal]) =
      reconstruct_bytes R B instructions ++ literal := by
  by_cases hl : literal.isEmpty
  · rw [if_pos hl, List.isEmpty_iff.mp hl, List.append_nil]
  · rw [if_neg hl, reconstruct_append]
    rfl

/-- Invariant of the rolling-scan loop: the instructions emitted so far,
followed by the pending literal buffer, reconstruct exactly the prefix of
the source scanned so far. -/
theorem deltaLoop_inv (B : Nat) (sig : List BlockChecksum) (strong_of : List Nat → List Nat)
    (R buffer : List Nat) (hB : 1 ≤ B)
    (hinj : Function.Injective strong_of)
    (hsig : ∀ c ∈ sig, c.strong = strong_of ((R.drop (c.index * B)).take B))
    (fuel : Nat) :
    ∀ pos literal rolling instructions,
      pos ≤ buffer.length →
      reconstruct_bytes R B instructions ++ literal = buffer.take pos →
      (deltaLoop B sig strong_of buffer fuel pos literal rolling instructions).1 ≤
          buffer.length ∧
        reconstruct_bytes R B
            (deltaLoop B sig strong_of buffer fuel pos literal rolling instructions).2.2 ++
          (deltaLoop B sig strong_of buffer fuel pos literal rolling instructions).2.1 =
        buffer.take
          (deltaLoop B sig strong_of buffer fuel pos literal rolling instructions).1 := by
  induction fuel with
  | zero => intro pos literal rolling instructions hpos hrec; exact ⟨hpos, hrec⟩
  | succ fuel ih =>
      intro pos literal rolling instructions hpos hrec
      by_cases hcond : pos + B ≤ buffer.length
      · rw [deltaLoop]
        cases hfm : find_match sig (rollingStep B buffer pos rolling).checksum
            (strong_of ((buffer.drop pos).take B)) with
        | some mb =>
            simp only [if_pos hcond, hfm]
            refine ih (pos + B) []
              none _ hcond ?_
            rw [List.append_nil, reconstruct_append, reconstruct_flush]
            rw [apply_instruction,
              find_match_block B strong_of hinj R sig hsig _ _ mb hfm, hrec,
              List.take_add]
        | none =>
            simp only [if_pos hcond, hfm]
            refine ih (pos + 1) (literal ++ [buffer.getD pos 0])
              (some (rollingStep B buffer pos rolling)) instructions (by omega) ?_
            rw [← List.append_assoc, hrec, ← take_succ_getD buffer pos (by omega)]
      · rw [deltaLoop]
        simp only [if_neg hcond]
        exact ⟨hpos, hrec⟩

/-- The tail handling turns the loop invariant into full reconstruction of
the whole source. -/
theorem deltaTail_sound (B : Nat) (sig : List BlockChecksum)
    (strong_of : List Nat → List Nat) (R buffer : List Nat)
    (hinj : Function.Injective strong_of)
    (hsig : ∀ c ∈ sig, c.strong = strong_of ((R.drop (c.index * B)).take B))
    (st : Nat × List Nat × List DeltaInstruction)
    (hpos : st.1 ≤ buffer.length)
    (hrec : reconstruct_bytes R B st.2.2 ++ st.2.1 = buffer.take st.1) :
    reconstruct_bytes R B (deltaTail sig strong_of buffer st).2 ++
        (deltaTail sig strong_of buffer st).1 = buffer := by
  obtain ⟨pos, literal, instructions⟩ := st
  simp only at hpos hrec
  rw [deltaTail]
  by_cases hlt : pos < buffer.length
  · cases hfm : find_match sig (RollingChecksum.new (buffer.drop pos)).checksum
        (strong_of (buffer.drop pos)) with
    | some mb =>
        simp only [if_pos hlt, hfm]
        rw [List.append_nil, reconstruct_append, reconstruct_flush, apply_instruction,
          find_match_block B strong_of hinj R sig hsig _ _ mb hfm, hrec,
          List.take_append_drop]
    | none =>
        simp only [if_pos hlt, hfm]
        rw [← List.append_assoc, hrec, List.take_append_drop]
  · simp only [if_neg hlt]
    have : pos = buffer.length := by omega
    rw [hrec, this, List.take_length]

theorem reconstruct_deltaFlush (R : List Nat) (B : Nat)
    (p : List Nat × List DeltaInstruction) :
    reconstruct_bytes R B (deltaFlush p) = reconstruct_bytes R B p.2 ++ p.1 := by
  obtain ⟨literal, instructions⟩ := p
  rw [deltaFlush]
  exact reconstruct_flush R B instructions literal

/-- Round-trip identity holds exactly when the generator's blocks are
aligned: for references within the reader's 8 KiB internal capacity, or
block sizes of at least 8 KiB (the bypass path).  The strong digest (an
external hash crate) is abstracted as any injective function
`strong_of`. -/
theorem round_trip_identity_aligned (R S : List Nat) (B : Nat)
    (strong_of : List Nat → List Nat) (hB : 1 ≤ B)
    (hinj : Function.Injective strong_of) (halign : R.length ≤ 8192 ∨ 8192 ≤ B) :
    reconstruct_bytes R B
        (compute_delta B (generate_checksums B strong_of R) strong_of S) = S := by
  unfold compute_delta
  by_cases hS : S.isEmpty
  · rw [if_pos hS, List.isEmpty_iff.mp hS]
    rfl
  · rw [if_neg hS, reconstruct_deltaFlush]
    have hsig := generate_checksums_strong_aligned B strong_of R halign
    have hloop := deltaLoop_inv B (generate_checksums B strong_of R) strong_of R S hB hinj
      hsig (S.length + 1) 0 [] none [] (by omega) (by rfl)
    exact deltaTail_sound B (generate_checksums B strong_of R) strong_of R S hinj hsig
      _ hloop.1 hloop.2

/-! ### Unfolding lemmas for the generator and the scan loop on chunked data -/

theorem take_append_of_len {α : Type} (l1 l2 : List α) (n : Nat) (h : l1.length = n) :
    (l1 ++ l2).take n = l1 := by
  subst h
  exact List.take_left l1 l2

theorem drop_append_of_len {α : Type} (l1 l2 : List α) (n : Nat) (h : l1.length = n) :
    (l1 ++ l2).drop n = l2 := by
  subst h
  exact List.drop_left l1 l2

theorem genAux_nil (B : Nat) (s : List Nat → List Nat) (fuel index : Nat) :
    genAux B s fuel index [] = [] := by
  cases fuel <;> rfl

/-- One full block step of the generator's read loop: the head chunk has
exactly `B` bytes, so the read returns it whole. -/
theorem genAux_block {B : Nat} {s : List Nat → List Nat} {fuel f index : Nat}
    {l1 l2 : List Nat} (hfuel : fuel = f + 1) (h1 : l1.length = B) (hB : 1 ≤ B) :
    genAux B s fuel index (l1 ++ l2) =
      ⟨index, (RollingChecksum.new l1).checksum, s l1⟩ ::
        genAux B s f (index + 1) l2 := by
  subst hfuel
  cases l1 with
  | nil =>
      rw [List.length_nil] at h1
      omega
  | cons x t =>
      rw [List.cons_append, genAux, ← List.cons_append,
        take_append_of_len (x :: t) l2 B h1, drop_append_of_len (x :: t) l2 B h1]

/-- The final short block of a read run: fewer than `B` bytes remain. -/
theorem genAux_short {B : Nat} {s : List Nat → List Nat} {fuel f index : Nat}
    {l1 : List Nat} (hfuel : fuel = f + 1) (h0 : l1 ≠ []) (h1 : l1.length ≤ B) :
    genAux B s fuel index l1 =
      [⟨index, (RollingChecksum.new l1).checksum, s l1⟩] := by
  subst hfuel
  cases l1 with
  | nil => exact absurd rfl h0
  | cons x t =>
      rw [genAux, List.take_of_length_le h1, List.drop_eq_nil_of_le h1, genAux_nil]

/-- One full 8 KiB refill segment of the buffered read loop: the segment's
own `B`-chunking, then the rest with the running index advanced. -/
theorem genSegs_step {B : Nat} {s : List Nat → List Nat} {fuel f index : Nat}
    {seg rest : List Nat} (hfuel : fuel = f + 1) (hseg : seg.length = 8192) :
    genSegs B s fuel index (seg ++ rest) =
      genAux B s 8192 index seg ++
        genSegs B s f (index + (genAux B s 8192 index seg).length) rest := by
  subst hfuel
  cases seg with
  | nil =>
      rw [List.length_nil] at hseg
      omega
  | cons x t =>
      rw [List.cons_append, genSegs, ← List.cons_append,
        take_append_of_len (x :: t) rest 8192 hseg,
        drop_append_of_len (x :: t) rest 8192 hseg, hseg]

/-- The last (at most 8 KiB) refill segment. -/
theorem genSegs_short {B : Nat} {s : List Nat → List Nat} {fuel f index : Nat}
    {seg : List Nat} (hfuel : fuel = f + 1) (h0 : seg ≠ []) (hseg : seg.length ≤ 8192) :
    genSegs B s fuel index seg = genAux B s seg.length index seg := by
  subst hfuel
  cases seg with
  | nil => exact absurd rfl h0
  | cons x t =>
      rw [genSegs, List.take_of_length_le hseg, List.drop_eq_nil_of_le hseg,
        genSegs_nil, List.append_nil]

theorem rollingStep_none (B : Nat) (buffer : List Nat) (pos : Nat) :
    rollingStep B buffer pos none = RollingChecksum.new ((buffer.drop pos).take B) := rfl

theorem rollingStep_some (B : Nat) (buffer : List Nat) (pos : Nat) (rc0 : RollingChecksum) :
    rollingStep B buffer pos (some rc0) =
      rc0.roll (buffer.getD (pos - 1) 0) (buffer.getD (pos + B - 1) 0) := rfl

/-- One match iteration of the rolling scan. -/
theorem deltaLoop_match {B : Nat} {sig : List BlockChecksum} {s : List Nat → List Nat}
    {buffer : List Nat} {fuel f pos : Nat} {literal : List Nat}
    {rolling : Option RollingChecksum} {instructions : List DeltaInstruction}
    {mb : BlockChecksum} (hfuel : fuel = f + 1) (hguard : pos + B ≤ buffer.length)
    (hfm : find_match sig (rollingStep B buffer pos rolling).checksum
      (s ((buffer.drop pos).take B)) = some mb) :
    deltaLoop B sig s buffer fuel pos literal rolling instructions =
      deltaLoop B sig s buffer f (pos + B) [] none
        ((if literal.isEmpty then instructions
          else instructions ++ [DeltaInstruction.LiteralData literal]) ++
          [DeltaInstruction.MatchedBlock mb.index]) := by
  subst hfuel
  rw [deltaLoop]
  simp only [if_pos hguard, hfm]

/-- One miss iteration: the head byte joins the literal buffer and the
checksum keeps rolling. -/
theorem deltaLoop_miss {B : Nat} {sig : List BlockChecksum} {s : List Nat → List Nat}
    {buffer : List Nat} {fuel f pos : Nat} {literal : List Nat}
    {rolling : Option RollingChecksum} {instructions : List DeltaInstruction}
    (hfuel : fuel = f + 1) (hguard : pos + B ≤ buffer.length)
    (hfm : find_match sig (rollingStep B buffer pos rolling).checksum
      (s ((buffer.drop pos).take B)) = none) :
    deltaLoop B sig s buffer fuel pos literal rolling instructions =
      deltaLoop B sig s buffer f (pos + 1) (literal ++ [buffer.getD pos 0])
        (some (rollingStep B buffer pos rolling)) instructions := by
  subst hfuel
  rw [deltaLoop]
  simp only [if_pos hguard, hfm]

/-- Loop exit when fewer than `B` bytes remain. -/
theorem deltaLoop_stop {B : Nat} {sig : List BlockChecksum} {s : List Nat → List Nat}
    {buffer : List Nat} {fuel pos : Nat} {literal : List Nat}
    {rolling : Option RollingChecksum} {instructions : List DeltaInstruction}
    (hguard : ¬ pos + B ≤ buffer.length) :
    deltaLoop B sig s buffer fuel pos literal rolling instructions =
      (pos, literal, instructions) := by
  cases fuel with
  | zero => rfl
  | succ f =>
      rw [deltaLoop]
      simp only [if_neg hguard]

theorem bucket_nil (w : Nat) : hash_table_bucket [] w = [] := rfl

theorem bucket_cons_pos (c : BlockChecksum) (rest : List BlockChecksum) (w : Nat)
    (h : (c.weak == w) = true) :
    hash_table_bucket (c :: rest) w = c :: hash_table_bucket rest w := by
  rw [hash_table_bucket, hash_table_bucket, List.filter_cons, if_pos h]

theorem bucket_cons_neg (c : BlockChecksum) (rest : List BlockChecksum) (w : Nat)
    (h : (c.weak == w) = false) :
    hash_table_bucket (c :: rest) w = hash_table_bucket rest w := by
  rw [hash_table_bucket, hash_table_bucket, List.filter_cons, if_neg (by simp [h])]

/-! ### Strict evaluation of the weak checksum on concrete data -/

/-- Strict evaluator for the two 16-bit component sums of the weak
checksum, weights `w, w - 1, ...` passed down explicitly.  The always-true
guard forces both accumulators to numerals at every step, which keeps
kernel evaluation shallow on long concrete byte lists. -/
def natAB : List Nat → Nat → Nat → Nat → Nat × Nat
  | [], _, a, b => (a, b)
  | x :: xs, w, a, b =>
      if (w - 1) + ((a + x) % 65536) + ((b + w * x) % 65536) ≤
          (w - 1) + ((a + x) % 65536) + ((b + w * x) % 65536) then
        natAB xs (w - 1) ((a + x) % 65536) ((b + w * x) % 65536)
      else (a, b)

/-- `sumB` with the per-element weight made explicit. -/
def sumBW : List Nat → Nat → ZMod 65536
  | [], _ => 0
  | x :: xs, w => ((w : Nat) : ZMod 65536) * ((x : Nat) : ZMod 65536) + sumBW xs (w - 1)

theorem natAB_cons (x : Nat) (xs : List Nat) (w a b : Nat) :
    natAB (x :: xs) w a b =
      natAB xs (w - 1) ((a + x) % 65536) ((b + w * x) % 65536) := by
  rw [natAB, if_pos (Nat.le_refl _)]

theorem natAB_spec (l : List Nat) : ∀ w a b : Nat,
    ((natAB l w a b).1 : ZMod 65536) = (a : ZMod 65536) + sumA l ∧
      ((natAB l w a b).2 : ZMod 65536) = (b : ZMod 65536) + sumBW l w := by
  induction l with
  | nil =>
      intro w a b
      simp [natAB, sumA, sumBW]
  | cons x xs ih =>
      intro w a b
      rw [natAB_cons]
      obtain ⟨h1, h2⟩ := ih (w - 1) ((a + x) % 65536) ((b + w * x) % 65536)
      refine ⟨?_, ?_⟩
      · rw [h1, ZMod.natCast_mod, Nat.cast_add, sumA]
        ring
      · rw [h2, ZMod.natCast_mod, Nat.cast_add, Nat.cast_mul, sumBW]
        ring

theorem sumB_eq_sumBW (l : List Nat) : sumB l = sumBW l l.length := by
  induction l with
  | nil => rfl
  | cons x xs ih =>
      rw [sumB, sumBW, List.length_cons, Nat.add_sub_cancel, ih]

theorem sumA_of_natAB (data : List Nat) (n a b : Nat) (h : natAB data n 0 0 = (a, b)) :
    sumA data = ((a : Nat) : ZMod 65536) := by
  have hs := (natAB_spec data n 0 0).1
  rw [h] at hs
  simpa using hs.symm

theorem sumB_of_natAB (data : List Nat) (n a b : Nat) (hlen : data.length = n)
    (h : natAB data n 0 0 = (a, b)) :
    sumB data = ((b : Nat) : ZMod 65536) := by
  have hs := (natAB_spec data n 0 0).2
  rw [h] at hs
  rw [sumB_eq_sumBW, hlen]
  simpa using hs.symm

/-- Evaluated form of a fresh rolling-checksum state, from a strict
evaluation of its two component sums. -/
theorem state_eval (data : List Nat) (n a b : Nat) (hlen : data.length = n)
    (h : natAB data n 0 0 = (a, b)) :
    RollingChecksum.new data =
      ⟨((a : Nat) : ZMod 65536), ((b : Nat) : ZMod 65536), n⟩ := by
  rw [RollingChecksum.new_eq, sumA_of_natAB data n a b h,
    sumB_of_natAB data n a b hlen h, hlen]

/-- Evaluated form of a fresh weak checksum value. -/
theorem weak_eval (data : List Nat) (n a b c : Nat) (hlen : data.length = n)
    (h : natAB data n 0 0 = (a, b))
    (hc : (RollingChecksum.mk ((a : Nat) : ZMod 65536) ((b : Nat) : ZMod 65536)
      n).checksum = c) :
    (RollingChecksum.new data).checksum = c := by
  rw [state_eval data n a b hlen h, hc]

theorem getD_drop (l : List Nat) (n : Nat) : l.getD n 0 = (l.drop n).getD 0 0 := by
  rw [List.getD_eq_getElem?_getD, List.getD_eq_getElem?_getD, List.getElem?_drop,
    Nat.add_zero]

theorem getD_drop_add (l : List Nat) (m k : Nat) :
    l.getD (m + k) 0 = (l.drop m).getD k 0 := by
  rw [List.getD_eq_getElem?_getD, List.getD_eq_getElem?_getD, List.getElem?_drop]

/-! ### The concrete counterexample file -/

/-- Byte `i` of the counterexample reference file: a stream of big-endian
16-bit counters, so distinct blocks have distinct contents. -/
def cexByte (i : Nat) : Nat :=
  if i % 2 = 0 then i / 2 / 256 % 256 else i / 2 % 256

/-- Bytes `o, ..., o + n - 1` of the counterexample file. -/
def cexChunk (o n : Nat) : List Nat :=
  (List.range n).map (fun k => cexByte (o + k))

/-- The 9557-byte counterexample reference file (larger than the reader's
8 KiB internal buffer), written as the blocks the generator actually
produces at block size 1365: six full blocks, the 2-byte short block the
`BufReader` refill boundary causes at offset 8190 (`6 * 1365 = 8190` and
`8192 - 8190 = 2`), and a final full block starting at 8192. -/
def cexRef : List Nat :=
  cexChunk 0 1365 ++ (cexChunk 1365 1365 ++ (cexChunk 2730 1365 ++
    (cexChunk 4095 1365 ++ (cexChunk 5460 1365 ++ (cexChunk 6825 1365 ++
      (cexChunk 8190 2 ++ cexChunk 8192 1365))))))

/-- The signatures `generate_checksums` emits for `cexRef` at `B = 1365`
with the identity digest: block 6 covers only bytes `8190..8192` and block
7 starts at byte 8192 — not at `6 * 1365 = 8190` and `7 * 1365 = 9555`,
where the receiver will seek. -/
def cexSigs : List BlockChecksum :=
  [⟨0, 2371631475, cexChunk 0 1365⟩,
   ⟨1, 4048641448, cexChunk 1365 1365⟩,
   ⟨2, 741179366, cexChunk 2730 1365⟩,
   ⟨3, 2147766208, cexChunk 4095 1365⟩,
   ⟨4, 2417717934, cexChunk 5460 1365⟩,
   ⟨5, 1218155907, cexChunk 6825 1365⟩,
   ⟨6, 18678030, cexChunk 8190 2⟩,
   ⟨7, 1894540323, cexChunk 8192 1365⟩]

/-- The delta stream the sender emits for `cexRef` against `cexSigs`. -/
def cexDelta : List DeltaInstruction :=
  [DeltaInstruction.MatchedBlock 0, DeltaInstruction.MatchedBlock 1,
   DeltaInstruction.MatchedBlock 2, DeltaInstruction.MatchedBlock 3,
   DeltaInstruction.MatchedBlock 4, DeltaInstruction.MatchedBlock 5,
   DeltaInstruction.LiteralData [15, 255], DeltaInstruction.MatchedBlock 7]

theorem cexChunk_length (o n : Nat) : (cexChunk o n).length = n := by
  simp [cexChunk]

theorem cexChunk_take (o n t : Nat) (h : t ≤ n) : (cexChunk o n).take t = cexChunk o t := by
  rw [cexChunk, cexChunk, ← List.map_take, List.take_range, Nat.min_eq_left h]

theorem cexChunk_split (o m k : Nat) :
    cexChunk o (m + k) = cexChunk o m ++ cexChunk (o + m) k := by
  rw [cexChunk, cexChunk, cexChunk, List.range_add, List.map_append, List.map_map]
  congr 1
  simp [Function.comp, Nat.add_assoc]

theorem cexChunk_getD (o n k : Nat) (h : k < n) :
    (cexChunk o n).getD k 0 = cexByte (o + k) := by
  rw [cexChunk, List.getD_eq_getElem?_getD, List.getElem?_map, List.getElem?_range h]
  rfl

theorem cexRef_length : cexRef.length = 9557 := by
  simp [cexRef, cexChunk_length]

set_option maxRecDepth 200000 in
theorem cex_isEmpty : cexRef.isEmpty = false := by
  decide

set_option maxRecDepth 200000 in
theorem cex_weak0 : (RollingChecksum.new (cexChunk 0 1365)).checksum = 2371631475 :=
  weak_eval (cexChunk 0 1365) 1365 14707 36188 2371631475 (cexChunk_length 0 1365)
    (by decide) (by decide)

set_option maxRecDepth 200000 in
theorem cex_weak1 : (RollingChecksum.new (cexChunk 1365 1365)).checksum = 4048641448 :=
  weak_eval (cexChunk 1365 1365) 1365 23976 61777 4048641448 (cexChunk_length 1365 1365)
    (by decide) (by decide)

set_option maxRecDepth 200000 in
theorem cex_weak2 : (RollingChecksum.new (cexChunk 2730 1365)).checksum = 741179366 :=
  weak_eval (cexChunk 2730 1365) 1365 32742 11309 741179366 (cexChunk_length 2730 1365)
    (by decide) (by decide)

set_option maxRecDepth 200000 in
theorem cex_weak3 : (RollingChecksum.new (cexChunk 4095 1365)).checksum = 2147766208 :=
  weak_eval (cexChunk 4095 1365) 1365 20416 32772 2147766208 (cexChunk_length 4095 1365)
    (by decide) (by decide)

set_option maxRecDepth 200000 in
theorem cex_weak4 : (RollingChecksum.new (cexChunk 5460 1365)).checksum = 2417717934 :=
  weak_eval (cexChunk 5460 1365) 1365 29358 36891 2417717934 (cexChunk_length 5460 1365)
    (by decide) (by decide)

set_option maxRecDepth 200000 in
theorem cex_weak5 : (RollingChecksum.new (cexChunk 6825 1365)).checksum = 1218155907 :=
  weak_eval (cexChunk 6825 1365) 1365 38275 18587 1218155907 (cexChunk_length 6825 1365)
    (by decide) (by decide)

set_option maxRecDepth 200000 in
theorem cex_weak6 : (RollingChecksum.new (cexChunk 8190 2)).checksum = 18678030 :=
  weak_eval (cexChunk 8190 2) 2 270 285 18678030 (cexChunk_length 8190 2)
    (by decide) (by decide)

set_option maxRecDepth 200000 in
theorem cex_weak7 : (RollingChecksum.new (cexChunk 8192 1365)).checksum = 1894540323 :=
  weak_eval (cexChunk 8192 1365) 1365 25635 28908 1894540323 (cexChunk_length 8192 1365)
    (by decide) (by decide)

set_option maxRecDepth 200000 in
theorem cex_state8190 :
    RollingChecksum.new (cexChunk 8190 1365) =
      ⟨((25718 : Nat) : ZMod 65536), ((18271 : Nat) : ZMod 65536), 1365⟩ :=
  state_eval (cexChunk 8190 1365) 1365 25718 18271 (cexChunk_length 8190 1365) (by decide)

theorem cex_chk8190 :
    (RollingChecksum.mk ((25718 : Nat) : ZMod 65536) ((18271 : Nat) : ZMod 65536)
      1365).checksum = 1197433974 := by
  decide

/-- Rolling one byte forward from position 8190, old byte `R[8190] = 15`,
new byte `R[9555] = 169`. -/
theorem cex_roll1 :
    (RollingChecksum.mk ((25718 : Nat) : ZMod 65536) ((18271 : Nat) : ZMod 65536)
        1365).roll 15 169 =
      RollingChecksum.mk ((25872 : Nat) : ZMod 65536) ((23668 : Nat) : ZMod 65536)
        1365 := by
  decide

theorem cex_chk1 :
    (RollingChecksum.mk ((25872 : Nat) : ZMod 65536) ((23668 : Nat) : ZMod 65536)
      1365).checksum = 1551131920 := by
  decide

/-- Rolling one byte forward from position 8191, old byte `R[8191] = 255`,
new byte `R[9556] = 18`. -/
theorem cex_roll2 :
    (RollingChecksum.mk ((25872 : Nat) : ZMod 65536) ((23668 : Nat) : ZMod 65536)
        1365).roll 255 18 =
      RollingChecksum.mk ((25635 : Nat) : ZMod 65536) ((28908 : Nat) : ZMod 65536)
        1365 := by
  decide

theorem cex_chk2 :
    (RollingChecksum.mk ((25635 : Nat) : ZMod 65536) ((28908 : Nat) : ZMod 65536)
      1365).checksum = 1894540323 := by
  decide

theorem cex_drop1365 :
    cexRef.drop 1365 =
      cexChunk 1365 1365 ++ (cexChunk 2730 1365 ++ (cexChunk 4095 1365 ++
        (cexChunk 5460 1365 ++ (cexChunk 6825 1365 ++
          (cexChunk 8190 2 ++ cexChunk 8192 1365))))) := by
  unfold cexRef
  rw [drop_append_of_len _ _ _ (cexChunk_length 0 1365)]

theorem cex_drop2730 :
    cexRef.drop 2730 =
      cexChunk 2730 1365 ++ (cexChunk 4095 1365 ++ (cexChunk 5460 1365 ++
        (cexChunk 6825 1365 ++ (cexChunk 8190 2 ++ cexChunk 8192 1365)))) := by
  rw [show (2730 : Nat) = 1365 + 1365 from by norm_num, ← List.drop_drop, cex_drop1365,
    drop_append_of_len _ _ _ (cexChunk_length 1365 1365)]

theorem cex_drop4095 :
    cexRef.drop 4095 =
      cexChunk 4095 1365 ++ (cexChunk 5460 1365 ++ (cexChunk 6825 1365 ++
        (cexChunk 8190 2 ++ cexChunk 8192 1365))) := by
  rw [show (4095 : Nat) = 2730 + 1365 from by norm_num, ← List.drop_drop, cex_drop2730,
    drop_append_of_len _ _ _ (cexChunk_length 2730 1365)]

theorem cex_drop5460 :
    cexRef.drop 5460 =
      cexChunk 5460 1365 ++ (cexChunk 6825 1365 ++
        (cexChunk 8190 2 ++ cexChunk 8192 1365)) := by
  rw [show (5460 : Nat) = 4095 + 1365 from by norm_num, ← List.drop_drop, cex_drop4095,
    drop_append_of_len _ _ _ (cexChunk_length 4095 1365)]

theorem cex_drop6825 :
    cexRef.drop 6825 =
      cexChunk 6825 1365 ++ (cexChunk 8190 2 ++ cexChunk 8192 1365) := by
  rw [show (6825 : Nat) = 5460 + 1365 from by norm_num, ← List.drop_drop, cex_drop5460,
    drop_append_of_len _ _ _ (cexChunk_length 5460 1365)]

theorem cex_drop8190 :
    cexRef.drop 8190 = cexChunk 8190 2 ++ cexChunk 8192 1365 := by
  rw [show (8190 : Nat) = 6825 + 1365 from by norm_num, ← List.drop_drop, cex_drop6825,
    drop_append_of_len _ _ _ (cexChunk_length 6825 1365)]

theorem cex_drop8192 : cexRef.drop 8192 = cexChunk 8192 1365 := by
  rw [show (8192 : Nat) = 8190 + 2 from by norm_num, ← List.drop_drop, cex_drop8190,
    drop_append_of_len _ _ _ (cexChunk_length 8190 2)]

theorem cex_win0 : (cexRef.drop 0).take 1365 = cexChunk 0 1365 := by
  rw [List.drop_zero]
  unfold cexRef
  rw [take_append_of_len _ _ _ (cexChunk_length 0 1365)]

theorem cex_win1 : (cexRef.drop 1365).take 1365 = cexChunk 1365 1365 := by
  rw [cex_drop1365, take_append_of_len _ _ _ (cexChunk_length 1365 1365)]

theorem cex_win2 : (cexRef.drop 2730).take 1365 = cexChunk 2730 1365 := by
  rw [cex_drop2730, take_append_of_len _ _ _ (cexChunk_length 2730 1365)]

theorem cex_win3 : (cexRef.drop 4095).take 1365 = cexChunk 4095 1365 := by
  rw [cex_drop4095, take_append_of_len _ _ _ (cexChunk_length 4095 1365)]

theorem cex_win4 : (cexRef.drop 5460).take 1365 = cexChunk 5460 1365 := by
  rw [cex_drop5460, take_append_of_len _ _ _ (cexChunk_length 5460 1365)]

theorem cex_win5 : (cexRef.drop 6825).take 1365 = cexChunk 6825 1365 := by
  rw [cex_drop6825, take_append_of_len _ _ _ (cexChunk_length 6825 1365)]

theorem cex_win6 : (cexRef.drop 8190).take 1365 = cexChunk 8190 1365 := by
  rw [cex_drop8190, List.take_append_eq_append_take,
    List.take_of_length_le (show (cexChunk 8190 2).length ≤ 1365 from by
      simp [cexChunk_length]),
    cexChunk_length 8190 2,
    show (1365 - 2 : Nat) = 1363 from by norm_num,
    cexChunk_take 8192 1365 1363 (by norm_num),
    show (8192 : Nat) = 8190 + 2 from by norm_num,
    ← cexChunk_split 8190 2 1363]

theorem cex_win7 : (cexRef.drop 8192).take 1365 = cexChunk 8192 1365 := by
  rw [cex_drop8192, List.take_of_length_le (le_of_eq (cexChunk_length 8192 1365))]

set_option maxRecDepth 200000 in
theorem cex_getD8190 : cexRef.getD 8190 0 = 15 := by
  rw [getD_drop, cex_drop8190]
  decide

set_option maxRecDepth 200000 in
theorem cex_getD8191 : cexRef.getD 8191 0 = 255 := by
  rw [getD_drop, show (8191 : Nat) = 8190 + 1 from by norm_num, ← List.drop_drop,
    cex_drop8190]
  decide

theorem cex_getD9555 : cexRef.getD 9555 0 = 169 := by
  rw [show (9555 : Nat) = 8192 + 1363 from by norm_num, getD_drop_add, cex_drop8192,
    cexChunk_getD 8192 1365 1363 (by norm_num)]
  decide

theorem cex_getD9556 : cexRef.getD 9556 0 = 18 := by
  rw [show (9556 : Nat) = 8192 + 1364 from by norm_num, getD_drop_add, cex_drop8192,
    cexChunk_getD 8192 1365 1364 (by norm_num)]
  decide

set_option maxRecDepth 200000 in
theorem cex_find0 :
    find_match cexSigs 2371631475 (cexChunk 0 1365) =
      some ⟨0, 2371631475, cexChunk 0 1365⟩ := by
  rw [find_match, cexSigs, bucket_cons_pos _ _ _ (by decide),
    bucket_cons_neg _ _ _ (by decide), bucket_cons_neg _ _ _ (by decide),
    bucket_cons_neg _ _ _ (by decide), bucket_cons_neg _ _ _ (by decide),
    bucket_cons_neg _ _ _ (by decide), bucket_cons_neg _ _ _ (by decide),
    bucket_cons_neg _ _ _ (by decide), bucket_nil]
  exact List.find?_cons_of_pos _ (beq_self_eq_true _)

set_option maxRecDepth 200000 in
theorem cex_find1 :
    find_match cexSigs 4048641448 (cexChunk 1365 1365) =
      some ⟨1, 4048641448, cexChunk 1365 1365⟩ := by
  rw [find_match, cexSigs, bucket_cons_neg _ _ _ (by decide),
    bucket_cons_pos _ _ _ (by decide), bucket_cons_neg _ _ _ (by decide),
    bucket_cons_neg _ _ _ (by decide), bucket_cons_neg _ _ _ (by decide),
    bucket_cons_neg _ _ _ (by decide), bucket_cons_neg _ _ _ (by decide),
    bucket_cons_neg _ _ _ (by decide), bucket_nil]
  exact List.find?_cons_of_pos _ (beq_self_eq_true _)

set_option maxRecDepth 200000 in
theorem cex_find2 :
    find_match cexSigs 741179366 (cexChunk 2730 1365) =
      some ⟨2, 741179366, cexChunk 2730 1365⟩ := by
  rw [find_match, cexSigs, bucket_cons_neg _ _ _ (by decide),
    bucket_cons_neg _ _ _ (by decide), bucket_cons_pos _ _ _ (by decide),
    bucket_cons_neg _ _ _ (by decide), bucket_cons_neg _ _ _ (by decide),
    bucket_cons_neg _ _ _ (by decide), bucket_cons_neg _ _ _ (by decide),
    bucket_cons_neg _ _ _ (by decide), bucket_nil]
  exact List.find?_cons_of_pos _ (beq_self_eq_true _)

set_option maxRecDepth 200000 in
theorem cex_find3 :
    find_match cexSigs 2147766208 (cexChunk 4095 1365) =
      some ⟨3, 2147766208, cexChunk 4095 1365⟩ := by
  rw [find_match, cexSigs, bucket_cons_neg _ _ _ (by decide),
    bucket_cons_neg _ _ _ (by decide), bucket_cons_neg _ _ _ (by decide),
    bucket_cons_pos _ _ _ (by decide), bucket_cons_neg _ _ _ (by decide),
    bucket_cons_neg _ _ _ (by decide), bucket_cons_neg _ _ _ (by decide),
    bucket_cons_neg _ _ _ (by decide), bucket_nil]
  exact List.find?_cons_of_pos _ (beq_self_eq_true _)

set_option maxRecDepth 200000 in
theorem cex_find4 :
    find_match cexSigs 2417717934 (cexChunk 5460 1365) =
      some ⟨4, 2417717934, cexChunk 5460 1365⟩ := by
  rw [find_match, cexSigs, bucket_cons_neg _ _ _ (by decide),
    bucket_cons_neg _ _ _ (by decide), bucket_cons_neg _ _ _ (by decide),
    bucket_cons_neg _ _ _ (by decide), bucket_cons_pos _ _ _ (by decide),
    bucket_cons_neg _ _ _ (by decide), bucket_cons_neg _ _ _ (by decide),
    bucket_cons_neg _ _ _ (by decide), bucket_nil]
  exact List.find?_cons_of_pos _ (beq_self_eq_true _)

set_option maxRecDepth 200000 in
theorem cex_find5 :
    find_match cexSigs 1218155907 (cexChunk 6825 1365) =
      some ⟨5, 1218155907, cexChunk 6825 1365⟩ := by
  rw [find_match, cexSigs, bucket_cons_neg _ _ _ (by decide),
    bucket_cons_neg _ _ _ (by decide), bucket_cons_neg _ _ _ (by decide),
    bucket_cons_neg _ _ _ (by decide), bucket_cons_neg _ _ _ (by decide),
    bucket_cons_pos _ _ _ (by decide), bucket_cons_neg _ _ _ (by decide),
    bucket_cons_neg _ _ _ (by decide), bucket_nil]
  exact List.find?_cons_of_pos _ (beq_self_eq_true _)

set_option maxRecDepth 200000 in
theorem cex_find7 :
    find_match cexSigs 1894540323 (cexChunk 8192 1365) =
      some ⟨7, 1894540323, cexChunk 8192 1365⟩ := by
  rw [find_match, cexSigs, bucket_cons_neg _ _ _ (by decide),
    bucket_cons_neg _ _ _ (by decide), bucket_cons_neg _ _ _ (by decide),
    bucket_cons_neg _ _ _ (by decide), bucket_cons_neg _ _ _ (by decide),
    bucket_cons_neg _ _ _ (by decide), bucket_cons_neg _ _ _ (by decide),
    bucket_cons_pos _ _ _ (by decide), bucket_nil]
  exact List.find?_cons_of_pos _ (beq_self_eq_true _)

/-- No signature has the weak value of the scan window at position 8190. -/
theorem cex_miss1 (v : List Nat) : find_match cexSigs 1197433974 v = none := by
  rw [find_match, cexSigs, bucket_cons_neg _ _ _ (by decide),
    bucket_cons_neg _ _ _ (by decide), bucket_cons_neg _ _ _ (by decide),
    bucket_cons_neg _ _ _ (by decide), bucket_cons_neg _ _ _ (by decide),
    bucket_cons_neg _ _ _ (by decide), bucket_cons_neg _ _ _ (by decide),
    bucket_cons_neg _ _ _ (by decide), bucket_nil]
  rfl

/-- No signature has the weak value of the scan window at position 8191. -/
theorem cex_miss2 (v : List Nat) : find_match cexSigs 1551131920 v = none := by
  rw [find_match, cexSigs, bucket_cons_neg _ _ _ (by decide),
    bucket_cons_neg _ _ _ (by decide), bucket_cons_neg _ _ _ (by decide),
    bucket_cons_neg _ _ _ (by decide), bucket_cons_neg _ _ _ (by decide),
    bucket_cons_neg _ _ _ (by decide), bucket_cons_neg _ _ _ (by decide),
    bucket_cons_neg _ _ _ (by decide), bucket_nil]
  rfl

set_option maxRecDepth 200000 in
/-- The signatures the generator computes for `cexRef` at block size 1365:
the buffered read loop produces the 2-byte short block 6 at the 8 KiB
refill boundary. -/
theorem cex_sigs : generate_checksums 1365 (fun l => l) cexRef = cexSigs := by
  rw [generate_checksums, if_neg (by norm_num), if_neg (by norm_num), cexRef_length]
  rw [show cexRef =
      (cexChunk 0 1365 ++ (cexChunk 1365 1365 ++ (cexChunk 2730 1365 ++
        (cexChunk 4095 1365 ++ (cexChunk 5460 1365 ++ (cexChunk 6825 1365 ++
          cexChunk 8190 2)))))) ++ cexChunk 8192 1365 from by
    simp [cexRef, List.append_assoc]]
  rw [genSegs_step rfl (by simp [cexChunk_length])]
  rw [genAux_block (show (8192 : Nat) = 8191 + 1 from by norm_num)
    (cexChunk_length 0 1365) (by norm_num)]
  rw [genAux_block (show (8191 : Nat) = 8190 + 1 from by norm_num)
    (cexChunk_length 1365 1365) (by norm_num)]
  rw [genAux_block (show (8190 : Nat) = 8189 + 1 from by norm_num)
    (cexChunk_length 2730 1365) (by norm_num)]
  rw [genAux_block (show (8189 : Nat) = 8188 + 1 from by norm_num)
    (cexChunk_length 4095 1365) (by norm_num)]
  rw [genAux_block (show (8188 : Nat) = 8187 + 1 from by norm_num)
    (cexChunk_length 5460 1365) (by norm_num)]
  rw [genAux_block (show (8187 : Nat) = 8186 + 1 from by norm_num)
    (cexChunk_length 6825 1365) (by norm_num)]
  rw [genAux_short (show (8186 : Nat) = 8185 + 1 from by norm_num)
    (show cexChunk 8190 2 ≠ [] from by decide)
    (show (cexChunk 8190 2).length ≤ 1365 from by simp [cexChunk_length])]
  norm_num
  rw [genSegs_short (show (9557 : Nat) = 9556 + 1 from by norm_num)
    (show cexChunk 8192 1365 ≠ [] from by decide)
    (show (cexChunk 8192 1365).length ≤ 8192 from by simp [cexChunk_length])]
  rw [cexChunk_length 8192 1365]
  rw [genAux_short (show (1365 : Nat) = 1364 + 1 from by norm_num)
    (show cexChunk 8192 1365 ≠ [] from by decide)
    (show (cexChunk 8192 1365).length ≤ 1365 from by simp [cexChunk_length])]
  rw [cex_weak0, cex_weak1, cex_weak2, cex_weak3, cex_weak4, cex_weak5, cex_weak6,
    cex_weak7]
  rfl

set_option maxRecDepth 200000 in
/-- The delta the sender computes for `cexRef` against its own signatures:
matches on blocks 0-5, a two-byte literal for bytes 8190-8191, and a match
on block 7. -/
theorem cex_delta : compute_delta 1365 cexSigs (fun l => l) cexRef = cexDelta := by
  rw [compute_delta, if_neg (by rw [cex_isEmpty]; decide), cexRef_length]
  rw [@deltaLoop_match 1365 cexSigs (fun l => l) cexRef (9557 + 1) 9557 0 [] none []
    ⟨0, 2371631475, cexChunk 0 1365⟩ rfl
    (show 0 + 1365 ≤ cexRef.length from by rw [cexRef_length]; norm_num)
    (show find_match cexSigs (rollingStep 1365 cexRef 0 none).checksum
        ((fun l => l) ((cexRef.drop 0).take 1365)) =
        some ⟨0, 2371631475, cexChunk 0 1365⟩ from by
      rw [rollingStep_none, cex_win0, cex_weak0]; exact cex_find0)]
  simp only [List.isEmpty_nil, List.isEmpty_cons, reduceIte, List.nil_append,
    List.cons_append, List.append_nil, Nat.reduceAdd]
  rw [@deltaLoop_match 1365 cexSigs (fun l => l) cexRef 9557 9556 1365 [] none
    [DeltaInstruction.MatchedBlock 0] ⟨1, 4048641448, cexChunk 1365 1365⟩ rfl
    (show 1365 + 1365 ≤ cexRef.length from by rw [cexRef_length]; norm_num)
    (show find_match cexSigs (rollingStep 1365 cexRef 1365 none).checksum
        ((fun l => l) ((cexRef.drop 1365).take 1365)) =
        some ⟨1, 4048641448, cexChunk 1365 1365⟩ from by
      rw [rollingStep_none, cex_win1, cex_weak1]; exact cex_find1)]
  simp only [List.isEmpty_nil, List.isEmpty_cons, reduceIte, List.nil_append,
    List.cons_append, List.append_nil, Nat.reduceAdd]
  rw [@deltaLoop_match 1365 cexSigs (fun l => l) cexRef 9556 9555 2730 [] none
    [DeltaInstruction.MatchedBlock 0, DeltaInstruction.MatchedBlock 1]
    ⟨2, 741179366, cexChunk 2730 1365⟩ rfl
    (show 2730 + 1365 ≤ cexRef.length from by rw [cexRef_length]; norm_num)
    (show find_match cexSigs (rollingStep 1365 cexRef 2730 none).checksum
        ((fun l => l) ((cexRef.drop 2730).take 1365)) =
        some ⟨2, 741179366, cexChunk 2730 1365⟩ from by
      rw [rollingStep_none, cex_win2, cex_weak2]; exact cex_find2)]
  simp only [List.isEmpty_nil, List.isEmpty_cons, reduceIte, List.nil_append,
    List.cons_append, List.append_nil, Nat.reduceAdd]
  rw [@deltaLoop_match 1365 cexSigs (fun l => l) cexRef 9555 9554 4095 [] none
    [DeltaInstruction.MatchedBlock 0, DeltaInstruction.MatchedBlock 1,
      DeltaInstruction.MatchedBlock 2] ⟨3, 2147766208, cexChunk 4095 1365⟩ rfl
    (show 4095 + 1365 ≤ cexRef.length from by rw [cexRef_length]; norm_num)
    (show find_match cexSigs (rollingStep 1365 cexRef 4095 none).checksum
        ((fun l => l) ((cexRef.drop 4095).take 1365)) =
        some ⟨3, 2147766208, cexChunk 4095 1365⟩ from by
      rw [rollingStep_none, cex_win3, cex_weak3]; exact cex_find3)]
  simp only [List.isEmpty_nil, List.isEmpty_cons, reduceIte, List.nil_append,
    List.cons_append, List.append_nil, Nat.reduceAdd]
  rw [@deltaLoop_match 1365 cexSigs (fun l => l) cexRef 9554 9553 5460 [] none
    [DeltaInstruction.MatchedBlock 0, DeltaInstruction.MatchedBlock 1,
      DeltaInstruction.MatchedBlock 2, DeltaInstruction.MatchedBlock 3]
    ⟨4, 2417717934, cexChunk 5460 1365⟩ rfl
    (show 5460 + 1365 ≤ cexRef.length from by rw [cexRef_length]; norm_num)
    (show find_match cexSigs (rollingStep 1365 cexRef 5460 none).checksum
        ((fun l => l) ((cexRef.drop 5460).take 1365)) =
        some ⟨4, 2417717934, cexChunk 5460 1365⟩ from by
      rw [rollingStep_none, cex_win4, cex_weak4]; exact cex_find4)]
  simp only [List.isEmpty_nil, List.isEmpty_cons, reduceIte, List.nil_append,
    List.cons_append, List.append_nil, Nat.reduceAdd]
  rw [@deltaLoop_match 1365 cexSigs (fun l => l) cexRef 9553 9552 6825 [] none
    [DeltaInstruction.MatchedBlock 0, DeltaInstruction.MatchedBlock 1,
      DeltaInstruction.MatchedBlock 2, DeltaInstruction.MatchedBlock 3,
      DeltaInstruction.MatchedBlock 4] ⟨5, 1218155907, cexChunk 6825 1365⟩ rfl
    (show 6825 + 1365 ≤ cexRef.length from by rw [cexRef_length]; norm_num)
    (show find_match cexSigs (rollingStep 1365 cexRef 6825 none).checksum
        ((fun l => l) ((cexRef.drop 6825).take 1365)) =
        some ⟨5, 1218155907, cexChunk 6825 1365⟩ from by
      rw [rollingStep_none, cex_win5, cex_weak5]; exact cex_find5)]
  simp only [List.isEmpty_nil, List.isEmpty_cons, reduceIte, List.nil_append,
    List.cons_append, List.append_nil, Nat.reduceAdd]
  rw [@deltaLoop_miss 1365 cexSigs (fun l => l) cexRef 9552 9551 8190 [] none
    [DeltaInstruction.MatchedBlock 0, DeltaInstruction.MatchedBlock 1,
      DeltaInstruction.MatchedBlock 2, DeltaInstruction.MatchedBlock 3,
      DeltaInstruction.MatchedBlock 4, DeltaInstruction.MatchedBlock 5] rfl
    (show 8190 + 1365 ≤ cexRef.length from by rw [cexRef_length]; norm_num)
    (show find_match cexSigs (rollingStep 1365 cexRef 8190 none).checksum
        ((fun l => l) ((cexRef.drop 8190).take 1365)) = none from by
      rw [rollingStep_none, cex_win6, cex_state8190, cex_chk8190]; exact cex_miss1 _)]
  rw [rollingStep_none, cex_win6, cex_state8190, cex_getD8190]
  simp only [List.nil_append, Nat.reduceAdd]
  rw [@deltaLoop_miss 1365 cexSigs (fun l => l) cexRef 9551 9550 8191 [15]
    (some (RollingChecksum.mk ((25718 : Nat) : ZMod 65536) ((18271 : Nat) : ZMod 65536)
      1365))
    [DeltaInstruction.MatchedBlock 0, DeltaInstruction.MatchedBlock 1,
      DeltaInstruction.MatchedBlock 2, DeltaInstruction.MatchedBlock 3,
      DeltaInstruction.MatchedBlock 4, DeltaInstruction.MatchedBlock 5] rfl
    (show 8191 + 1365 ≤ cexRef.length from by rw [cexRef_length]; norm_num)
    (show find_match cexSigs (rollingStep 1365 cexRef 8191
          (some (RollingChecksum.mk ((25718 : Nat) : ZMod 65536)
            ((18271 : Nat) : ZMod 65536) 1365))).checksum
        ((fun l => l) ((cexRef.drop 8191).take 1365)) = none from by
      rw [rollingStep_some, show (8191 - 1 : Nat) = 8190 from by norm_num,
        show (8191 + 1365 - 1 : Nat) = 9555 from by norm_num, cex_getD8190,
        cex_getD9555, cex_roll1, cex_chk1]
      exact cex_miss2 _)]
  rw [rollingStep_some, show (8191 - 1 : Nat) = 8190 from by norm_num,
    show (8191 + 1365 - 1 : Nat) = 9555 from by norm_num, cex_getD8190, cex_getD9555,
    cex_roll1, cex_getD8191]
  simp only [List.cons_append, List.nil_append, Nat.reduceAdd]
  rw [@deltaLoop_match 1365 cexSigs (fun l => l) cexRef 9550 9549 8192 [15, 255]
    (some (RollingChecksum.mk ((25872 : Nat) : ZMod 65536) ((23668 : Nat) : ZMod 65536)
      1365))
    [DeltaInstruction.MatchedBlock 0, DeltaInstruction.MatchedBlock 1,
      DeltaInstruction.MatchedBlock 2, DeltaInstruction.MatchedBlock 3,
      DeltaInstruction.MatchedBlock 4, DeltaInstruction.MatchedBlock 5]
    ⟨7, 1894540323, cexChunk 8192 1365⟩ rfl
    (show 8192 + 1365 ≤ cexRef.length from by rw [cexRef_length])
    (show find_match cexSigs (rollingStep 1365 cexRef 8192
          (some (RollingChecksum.mk ((25872 : Nat) : ZMod 65536)
            ((23668 : Nat) : ZMod 65536) 1365))).checksum
        ((fun l => l) ((cexRef.drop 8192).take 1365)) =
        some ⟨7, 1894540323, cexChunk 8192 1365⟩ from by
      rw [rollingStep_some, show (8192 - 1 : Nat) = 8191 from by norm_num,
        show (8192 + 1365 - 1 : Nat) = 9556 from by norm_num, cex_getD8191,
        cex_getD9556, cex_roll2, cex_chk2, cex_win7]
      exact cex_find7)]
  rw [if_neg (show ¬ List.isEmpty [15, 255] = true from by decide)]
  simp only [List.nil_append, List.cons_append, List.append_nil, Nat.reduceAdd]
  rw [@deltaLoop_stop 1365 cexSigs (fun l => l) cexRef 9549 9557 [] none
    [DeltaInstruction.MatchedBlock 0, DeltaInstruction.MatchedBlock 1,
      DeltaInstruction.MatchedBlock 2, DeltaInstruction.MatchedBlock 3,
      DeltaInstruction.MatchedBlock 4, DeltaInstruction.MatchedBlock 5,
      DeltaInstruction.LiteralData [15, 255], DeltaInstruction.MatchedBlock 7]
    (show ¬ 9557 + 1365 ≤ cexRef.length from by rw [cexRef_length]; norm_num)]
  rw [deltaTail, if_neg (show ¬ 9557 < cexRef.length from by rw [cexRef_length]; norm_num)]
  rw [deltaFlush]
  rfl



/-- The receiver's output for `cexDelta` against `cexRef` has 8194 bytes:
the `MatchedBlock 7` makes it seek `7 * 1365 = 9555` and copy the 2 bytes
that remain there, instead of block 7's actual 1365 bytes at offset
8192. -/
theorem cex_out_length : (reconstruct_bytes cexRef 1365 cexDelta).length = 8194 := by
  rw [reconstruct_bytes, cexDelta]
  simp [apply_instruction, List.length_take, List.length_drop, cexRef_length]

/-- Claim C1.  The round-trip identity **fails on the program**: syncing
the 9557-byte file `cexRef` against itself with block size 1365
reconstructs a different byte sequence.  `BufReader::read` returns a
2-byte short count at its 8192-byte internal-buffer boundary
(`6 * 1365 = 8190`), so block 6's signature covers only `R[8190..8192)`
and block 7's covers `R[8192..9557)`; the sender then matches block 7 for
the window at 8192, and the receiver seeks `7 * 1365 = 9555` — where only
2 bytes remain — producing 8194 bytes instead of 9557.  The digest is the
identity function, which is injective, so the failure is the block
misalignment, not a hash collision. -/
theorem round_trip_short_read_failure :
    reconstruct_bytes cexRef 1365
        (compute_delta 1365 (generate_checksums 1365 (fun l => l) cexRef) (fun l => l)
          cexRef) ≠ cexRef := by
  rw [cex_sigs, cex_delta]
  intro heq
  have h := cex_out_length
  rw [heq, cexRef_length] at h
  exact absurd h (by norm_num)

/-- Scenario 2 of the spec: middle mutation, `B = 6`, digest taken as the
identity (injective): `MatchedBlock 0`, literal `"DDDDDD"`, `MatchedBlock 2`. -/
example :
    compute_delta 6
      (generate_checksums 6 (fun l => l) [65, 65, 65, 65, 65, 65, 66, 66, 66, 66, 66, 66, 67, 67, 67, 67, 67, 67])
      (fun l => l) [65, 65, 65, 65, 65, 65, 68, 68, 68, 68, 68, 68, 67, 67, 67, 67, 67, 67] =
    [DeltaInstruction.MatchedBlock 0, DeltaInstruction.LiteralData [68, 68, 68, 68, 68, 68],
      DeltaInstruction.MatchedBlock 2] := by decide

/-- Scenario 3 of the spec: completely disjoint files, one literal. -/
example :
    compute_delta 10 (generate_checksums 10 (fun l => l) [65, 65, 65, 65, 65, 65, 65, 65, 65, 65])
      (fun l => l) [66, 66, 66, 66, 66, 66, 66, 66, 66, 66] =
    [DeltaInstruction.LiteralData [66, 66, 66, 66, 66, 66, 66, 66, 66, 66]] := by decide

/-- Scenario 4 of the spec: empty source gives an empty delta. -/
example :
    compute_delta 10 (generate_checksums 10 (fun l => l) [65, 66, 67]) (fun l => l) [] = [] := by
  decide

/-! ## Tie-break by lowest index (claim C5) -/

/-- Claim C5. Tie-break by lowest index: when the signature list is in
strictly increasing index order (as produced by the generator), the
candidate search of `compute_delta` — first strong-digest hit in the weak
bucket, whose insertion order the table preserves — returns the signature
with the lowest block index among all signatures matching both the weak
value and the strong digest, so the emitted `MatchedBlock` carries that
lowest index. -/
theorem tie_break_lowest_index (sig : List BlockChecksum)
    (hsorted : sig.Pairwise (fun a b => a.index < b.index))
    (w : Nat) (v : List Nat) (c : BlockChecksum)
    (hfind : find_match sig w v = some c) :
    ∀ d ∈ sig, d.weak = w → d.strong = v → c.index ≤ d.index := by
  revert hsorted hfind
  induction sig with
  | nil => intro _ hfind; simp [find_match, hash_table_bucket] at hfind
  | cons a rest ih =>
      intro hsorted hfind
      rw [List.pairwise_cons] at hsorted
      intro d hd hw hs
      rw [find_match, hash_table_bucket, List.filter_cons] at hfind
      by_cases haw : a.weak = w
      · rw [if_pos (by simpa using haw)] at hfind
        by_cases has : a.strong = v
        · rw [List.find?_cons_of_pos _ (by simpa using has)] at hfind
          obtain rfl : a = c := Option.some.inj hfind
          rcases List.mem_cons.mp hd with rfl | hdrest
          · exact le_refl _
          · exact le_of_lt (hsorted.1 d hdrest)
        · rw [List.find?_cons_of_neg _ (by simpa using has)] at hfind
          rcases List.mem_cons.mp hd with rfl | hdrest
          · exact absurd hs has
          · exact ih hsorted.2 hfind d hdrest hw hs
      · rw [if_neg (by simpa using haw)] at hfind
        rcases List.mem_cons.mp hd with rfl | hdrest
        · exact absurd hw haw
        · exact ih hsorted.2 hfind d hdrest hw hs

/-- Witness for C5: two signatures share weak value 5 and strong digest
`[1]`; the search returns index 0, the lowest. -/
theorem tie_break_lowest_index_witness :
    ([⟨0, 5, [1]⟩, ⟨2, 5, [1]⟩] : List BlockChecksum).Pairwise
        (fun a b => a.index < b.index) ∧
      find_match [⟨0, 5, [1]⟩, ⟨2, 5, [1]⟩] 5 [1] = some ⟨0, 5, [1]⟩ ∧
      ∀ d ∈ ([⟨0, 5, [1]⟩, ⟨2, 5, [1]⟩] : List BlockChecksum),
        d.weak = 5 → d.strong = [1] → (⟨0, 5, [1]⟩ : BlockChecksum).index ≤ d.index :=
  ⟨by decide, by decide,
    tie_break_lowest_index [⟨0, 5, [1]⟩, ⟨2, 5, [1]⟩] (by decide) 5 [1] ⟨0, 5, [1]⟩
      (by decide)⟩

/-! ## Delta-stream shape invariant (claim C10) -/

/-- Whether an instruction is a `LiteralData`. -/
def isLiteral : DeltaInstruction → Bool
  | DeltaInstruction.LiteralData _ => true
  | DeltaInstruction.MatchedBlock _ => false

/-- An instruction is acceptable in a well-shaped stream: any
`MatchedBlock`, or a `LiteralData` with at least one byte. -/
def litNonempty : DeltaInstruction → Bool
  | DeltaInstruction.LiteralData d => !d.isEmpty
  | DeltaInstruction.MatchedBlock _ => true

/-- Shape predicate of claim C10: every literal is non-empty, and no two
consecutive instructions are both literals. -/
def shapeOk : List DeltaInstruction → Bool
  | [] => true
  | [i] => litNonempty i
  | i :: j :: rest => litNonempty i && !(isLiteral i && isLiteral j) && shapeOk (j :: rest)

/-- The stream is empty or ends in a `MatchedBlock` (auxiliary invariant of
the scan loop: literals are only emitted immediately before a match until
the final flush). -/
def endsOk (l : List DeltaInstruction) : Bool :=
  match l.getLast? with
  | none => true
  | some (DeltaInstruction.MatchedBlock _) => true
  | some (DeltaInstruction.LiteralData _) => false

theorem shapeOk_append (l m : List DeltaInstruction) (hl : shapeOk l = true)
    (he : endsOk l = true) (hm : shapeOk m = true) : shapeOk (l ++ m) = true := by
  induction l with
  | nil => simpa using hm
  | cons i l ih =>
      cases l with
      | nil =>
          cases m with
          | nil => simpa using hl
          | cons j t =>
              have hi : isLiteral i = false := by
                cases i with
                | MatchedBlock k => rfl
                | LiteralData d => simp [endsOk, List.getLast?] at he
              have hlit : litNonempty i = true := by simpa [shapeOk] using hl
              simp only [List.cons_append, List.nil_append, shapeOk, hi, hlit, hm]
              simp
      | cons j t =>
          rw [shapeOk] at hl
          have he2 : endsOk (j :: t) = true := by
            have hgl : (i :: j :: t).getLast? = (j :: t).getLast? := List.getLast?_cons_cons
            unfold endsOk at he ⊢
            rw [hgl] at he
            exact he
          simp only [Bool.and_eq_true] at hl
          have := ih hl.2 he2
          simp only [List.cons_append] at this ⊢
          rw [shapeOk]
          simp only [Bool.and_eq_true]
          refine ⟨⟨hl.1.1, ?_⟩, ?_⟩
          · exact hl.1.2
          · simpa using this

theorem endsOk_concat_match (l : List DeltaInstruction) (i : Nat) :
    endsOk (l ++ [DeltaInstruction.MatchedBlock i]) = true := by
  rw [endsOk, List.getLast?_concat]

/-- The flush-then-match emission step preserves shape and the
ends-in-match invariant. -/
theorem shape_emit (instructions : List DeltaInstruction) (literal : List Nat) (i : Nat)
    (hs : shapeOk instructions = true) (he : endsOk instructions = true) :
    shapeOk
        ((if literal.isEmpty then instructions
          else instructions ++ [DeltaInstruction.LiteralData literal]) ++
          [DeltaInstruction.MatchedBlock i]) = true ∧
      endsOk
        ((if literal.isEmpty then instructions
          else instructions ++ [DeltaInstruction.LiteralData literal]) ++
          [DeltaInstruction.MatchedBlock i]) = true := by
  by_cases hl : literal.isEmpty
  · rw [if_pos hl]
    exact ⟨shapeOk_append _ _ hs he (by rfl), endsOk_concat_match _ _⟩
  · rw [if_neg hl, List.append_assoc]
    refine ⟨?_, ?_⟩
    · refine shapeOk_append _ _ hs he ?_
      simp [shapeOk, litNonempty, isLiteral, hl]
    · rw [← List.append_assoc]
      exact endsOk_concat_match _ _

theorem deltaLoop_shape (B : Nat) (sig : List BlockChecksum)
    (strong_of : List Nat → List Nat) (buffer : List Nat) (fuel : Nat) :
    ∀ pos literal rolling instructions,
      shapeOk instructions = true → endsOk instructions = true →
      shapeOk (deltaLoop B sig strong_of buffer fuel pos literal rolling instructions).2.2 =
          true ∧
        endsOk
            (deltaLoop B sig strong_of buffer fuel pos literal rolling instructions).2.2 =
          true := by
  induction fuel with
  | zero => intro pos literal rolling instructions hs he; exact ⟨hs, he⟩
  | succ fuel ih =>
      intro pos literal rolling instructions hs he
      by_cases hcond : pos + B ≤ buffer.length
      · rw [deltaLoop]
        cases hfm : find_match sig (rollingStep B buffer pos rolling).checksum
            (strong_of ((buffer.drop pos).take B)) with
        | some mb =>
            simp only [if_pos hcond, hfm]
            have hemit := shape_emit instructions literal mb.index hs he
            exact ih (pos + B) [] none _ hemit.1 hemit.2
        | none =>
            simp only [if_pos hcond, hfm]
            exact ih (pos + 1) (literal ++ [buffer.getD pos 0])
              (some (rollingStep B buffer pos rolling)) instructions hs he
      · rw [deltaLoop]
        simp only [if_neg hcond]
        exact ⟨hs, he⟩

theorem deltaTail_shape (sig : List BlockChecksum) (strong_of : List Nat → List Nat)
    (buffer : List Nat) (st : Nat × List Nat × List DeltaInstruction)
    (hs : shapeOk st.2.2 = true) (he : endsOk st.2.2 = true) :
    shapeOk (deltaTail sig strong_of buffer st).2 = true ∧
      endsOk (deltaTail sig strong_of buffer st).2 = true := by
  obtain ⟨pos, literal, instructions⟩ := st
  simp only at hs he
  rw [deltaTail]
  by_cases hlt : pos < buffer.length
  · cases hfm : find_match sig (RollingChecksum.new (buffer.drop pos)).checksum
        (strong_of (buffer.drop pos)) with
    | some mb =>
        simp only [if_pos hlt, hfm]
        exact shape_emit instructions literal mb.index hs he
    | none =>
        simp only [if_pos hlt, hfm]
        exact ⟨hs, he⟩
  · simp only [if_neg hlt]
    exact ⟨hs, he⟩

theorem deltaFlush_shape (p : List Nat × List DeltaInstruction)
    (hs : shapeOk p.2 = true) (he : endsOk p.2 = true) :
    shapeOk (deltaFlush p) = true := by
  obtain ⟨literal, instructions⟩ := p
  simp only at hs he
  rw [deltaFlush]
  by_cases hl : literal.isEmpty
  · rw [if_pos hl]; exact hs
  · rw [if_neg hl]
    refine shapeOk_append _ _ hs he ?_
    simp [shapeOk, litNonempty, hl]

/-- Claim C10. Delta-stream shape invariant: with compression disabled,
`compute_delta` never emits two consecutive `LiteralData` instructions and
every `LiteralData` carries at least one byte. -/
theorem delta_stream_shape (B : Nat) (sig : List BlockChecksum)
    (strong_of : List Nat → List Nat) (buffer : List Nat) :
    shapeOk (compute_delta B sig strong_of buffer) = true := by
  unfold compute_delta
  by_cases hbuf : buffer.isEmpty
  · rw [if_pos hbuf]; rfl
  · rw [if_neg hbuf]
    have hloop := deltaLoop_shape B sig strong_of buffer (buffer.length + 1) 0 [] none []
      (by rfl) (by rfl)
    have htail := deltaTail_shape sig strong_of buffer _ hloop.1 hloop.2
    exact deltaFlush_shape _ htail.1 htail.2

/-! ## Per-file decision table (`LocalTransport::should_sync`, claim C3) -/

/-- `FileType` from `src/filesystem/file_info.rs`. -/
inductive FileType where
  | File
  | Directory
  | Symlink
deriving DecidableEq

/-- The fields of `FileInfo` read by the sync driver's decision logic:
byte size and modification time (`SystemTime`, modelled as seconds). -/
structure FileInfo where
  size : Nat
  mtime : Int
  file_type : FileType
deriving DecidableEq

/-- The `Options` fields read by `LocalTransport::should_sync` and the
per-file loop. -/
structure SyncOptions where
  update : Bool
  size_only : Bool
  checksum : Bool
deriving DecidableEq

/-- `LocalTransport::should_sync` (src/transport/local.rs:386-419):
`true` means transfer, `false` means skip.  The file digests (MD5 etc. of
the full contents, computed by `compute_file_checksum`) are passed in as
values. -/
def should_sync (opts : SyncOptions) (source_info : FileInfo) (dest_info : Option FileInfo)
    (source_digest dest_digest : List Nat) : Bool :=
  match dest_info with
  | none => true
  | some dest_info =>
      if opts.update ∧ source_info.mtime < dest_info.mtime then false
      else if opts.size_only then source_info.size != dest_info.size
      else if opts.checksum then source_digest != dest_digest
      else source_info.size != dest_info.size || source_info.mtime != dest_info.mtime

/-- The decision table exactly as the spec writes it (first matching row
wins); the `default` row applies when neither the size-only nor the
checksum comparison mode is selected. -/
def should_sync_spec_table (opts : SyncOptions) (source_info : FileInfo)
    (dest_info : Option FileInfo) (source_digest dest_digest : List Nat) : Bool :=
  match dest_info with
  | none => true
  | some dest_info =>
      if opts.update ∧ source_info.mtime < dest_info.mtime then false
      else if opts.size_only ∧ source_info.size = dest_info.size then false
      else if opts.checksum ∧ source_digest = dest_digest then false
      else if ¬opts.size_only ∧ ¬opts.checksum ∧ source_info.size = dest_info.size ∧
          source_info.mtime = dest_info.mtime then false
      else true

/-- Claim C3. Per-file decision table: `should_sync` decides exactly as
the spec's table (transfer when the destination is absent; skip on the
first matching row; transfer otherwise).  The only assumption is that the
content digest is size-respecting: equal digests only arise from
equal-sized files (any honest file digest satisfies this on the inputs the
driver feeds it). -/
theorem should_sync_decision_table (opts : SyncOptions) (source_info : FileInfo)
    (dest_info : Option FileInfo) (source_digest dest_digest : List Nat)
    (hdig : ∀ d, dest_info = some d → source_digest = dest_digest →
      source_info.size = d.size) :
    should_sync opts source_info dest_info source_digest dest_digest =
      should_sync_spec_table opts source_info dest_info source_digest dest_digest := by
  match dest_info with
  | none => rfl
  | some d =>
      have hd := hdig d rfl
      clear hdig
      rcases opts with ⟨u, so, ck⟩
      by_cases hg : source_digest = dest_digest
      · have hs : source_info.size = d.size := hd hg
        by_cases hm : source_info.mtime < d.mtime <;>
          by_cases ht : source_info.mtime = d.mtime <;>
            cases u <;> cases so <;> cases ck <;>
              simp [should_sync, should_sync_spec_table, hm, hs, hg, ht, bne_iff_ne]
      · by_cases hm : source_info.mtime < d.mtime <;>
          by_cases hs : source_info.size = d.size <;>
            by_cases ht : source_info.mtime = d.mtime <;>
              cases u <;> cases so <;> cases ck <;>
                simp [should_sync, should_sync_spec_table, hm, hs, hg, ht, bne_iff_ne]

/-- Witness for C3: default options, equal size and mtime — both sides
skip. -/
theorem should_sync_decision_table_witness :
    (∀ d, some (⟨1, 5, FileType.File⟩ : FileInfo) = some d → ([] : List Nat) = [] →
        (⟨1, 5, FileType.File⟩ : FileInfo).size = d.size) ∧
      should_sync ⟨false, false, false⟩ ⟨1, 5, FileType.File⟩
          (some ⟨1, 5, FileType.File⟩) [] [] =
        should_sync_spec_table ⟨false, false, false⟩ ⟨1, 5, FileType.File⟩
          (some ⟨1, 5, FileType.File⟩) [] [] :=
  ⟨by intro d hd _; cases Option.some.inj hd; rfl,
    should_sync_decision_table ⟨false, false, false⟩ ⟨1, 5, FileType.File⟩
      (some ⟨1, 5, FileType.File⟩) [] []
      (by intro d hd _; cases Option.some.inj hd; rfl)⟩

/-! ## Filter evaluation (`FilterEngine::should_include`, claim C6) -/

/-- `PatternType` from `src/filter/pattern.rs`. -/
inductive PatternType where
  | Include
  | Exclude
deriving DecidableEq

/-- A filter rule: its polarity and its compiled matcher.  The glob
matcher itself (the globset crate plus `FilterPattern::matches`) is
abstracted as a boolean function of the queried path. -/
structure FilterPattern where
  pattern_type : PatternType
  matchesb : List String → Bool

/-- The `for pattern in &self.patterns` loop of
`FilterEngine::should_include`: the first matching rule decides, and the
loop falls through to `true`. -/
def filter_first_match : List FilterPattern → List String → Bool
  | [], _ => true
  | p :: rest, path =>
      if p.matchesb path then
        match p.pattern_type with
        | PatternType.Include => true
        | PatternType.Exclude => false
      else filter_first_match rest path

/-- `FilterEngine::should_include` (src/filter/engine.rs:75-94). -/
def should_include (patterns : List FilterPattern) (path : List String) : Bool :=
  if patterns.isEmpty then true
  else filter_first_match patterns path

theorem filter_first_match_eq_find (rules : List FilterPattern) (path : List String) :
    filter_first_match rules path =
      (match rules.find? (fun r => r.matchesb path) with
       | some r => r.pattern_type == PatternType.Include
       | none => true) := by
  induction rules with
  | nil => rfl
  | cons p rest ih =>
      rw [filter_first_match]
      by_cases hm : p.matchesb path
      · rw [if_pos hm,
          @List.find?_cons_of_pos _ (fun r => r.matchesb path) p rest hm]
        cases hpt : p.pattern_type <;> simp [hpt]
      · rw [if_neg hm,
          @List.find?_cons_of_neg _ (fun r => r.matchesb path) p rest (by simpa using hm), ih]

/-- Claim C6. Filter evaluation: `should_include` walks the ordered rule
list and the first rule whose pattern matches decides the outcome
(include keeps, exclude drops); when no rule matches — in particular when
the list is empty — the path is kept. -/
theorem filter_evaluation (rules : List FilterPattern) (path : List String) :
    should_include rules path =
      (match rules.find? (fun r => r.matchesb path) with
       | some r => r.pattern_type == PatternType.Include
       | none => true) := by
  rw [should_include]
  by_cases he : rules.isEmpty
  · rw [if_pos he, List.isEmpty_iff.mp he]
    rfl
  · rw [if_neg he]
    exact filter_first_match_eq_find rules path

/-! ## Varint codec (`ProtocolStream::{read_varint, write_varint}`, claim C7) -/

/-- The `w` big-endian bytes of an unsigned value (most significant
first), as emitted by `write_i16/i32/i64::<BigEndian>` after truncation. -/
def beBytesNat : Nat → Nat → List Nat
  | 0, _ => []
  | w + 1, u => (u / 2 ^ (8 * w)) % 256 :: beBytesNat w u

/-- Two's-complement truncation of an integer to `8 * w` bits followed by
big-endian serialisation: the bytes of `val as iN` for `N = 8 * w`. -/
def beBytes (w : Nat) (val : Int) : List Nat :=
  beBytesNat w (val.emod (2 ^ (8 * w))).toNat

/-- Big-endian recomposition of a byte list into an unsigned value. -/
def fromBEBytes (bytes : List Nat) : Nat :=
  bytes.foldl (fun acc b => acc * 256 + b) 0

/-- Signed reinterpretation of an `8 * w`-bit unsigned value
(two's-complement), as performed by reading with `read_i16/i32/i64`. -/
def asSigned (w : Nat) (u : Nat) : Int :=
  if u < 2 ^ (8 * w - 1) then (u : Int) else (u : Int) - 2 ^ (8 * w)

/-- `ProtocolStream::write_varint` (src/protocol/stream.rs:85-122): range
dispatch in source order; tag bytes 251/252/253/254/255 select 2-byte
big-endian / 4-byte / 8-byte / signed 1-byte / negative 2-byte payloads. -/
def write_varint (val : Int) : List Nat :=
  if 0 ≤ val ∧ val ≤ 250 then [val.toNat]
  else if -128 ≤ val ∧ val ≤ -1 then 254 :: beBytes 1 val
  else if 251 ≤ val ∧ val ≤ 32767 then 251 :: beBytes 2 val
  else if -32768 ≤ val ∧ val ≤ -129 then 255 :: beBytes 2 val
  else if -2147483648 ≤ val ∧ val ≤ 2147483647 then 252 :: beBytes 4 val
  else 253 :: beBytes 8 val

/-- `ProtocolStream::read_varint` (src/protocol/stream.rs:64-82) on a byte
stream, returning the decoded value and the remaining stream (`none` when
the stream ends prematurely).  The first byte is matched as a `u8`:
`0..=250` is the value itself, `251/252/253` read a big-endian
`i16/i32/i64`, `254` reads an `i8`, and `255` (the final arm for a byte)
reads a big-endian `i16`. -/
def read_varint (stream : List Nat) : Option (Int × List Nat) :=
  match stream with
  | [] => none
  | b :: rest =>
      if b ≤ 250 then some ((b : Int), rest)
      else if b = 251 then
        if 2 ≤ rest.length then some (asSigned 2 (fromBEBytes (rest.take 2)), rest.drop 2)
        else none
      else if b = 252 then
        if 4 ≤ rest.length then some (asSigned 4 (fromBEBytes (rest.take 4)), rest.drop 4)
        else none
      else if b = 253 then
        if 8 ≤ rest.length then some (asSigned 8 (fromBEBytes (rest.take 8)), rest.drop 8)
        else none
      else if b = 254 then
        if 1 ≤ rest.length then some (asSigned 1 (fromBEBytes (rest.take 1)), rest.drop 1)
        else none
      else
        if 2 ≤ rest.length then some (asSigned 2 (fromBEBytes (rest.take 2)), rest.drop 2)
        else none

theorem beBytesNat_length (w u : Nat) : (beBytesNat w u).length = w := by
  induction w generalizing u with
  | zero => rfl
  | succ w ih => simp [beBytesNat, ih]

theorem beBytes_length (w : Nat) (val : Int) : (beBytes w val).length = w :=
  beBytesNat_length w _

theorem fromBE_beBytesNat_fold (w : Nat) :
    ∀ u acc, (beBytesNat w u).foldl (fun acc b => acc * 256 + b) acc =
      acc * 2 ^ (8 * w) + u % 2 ^ (8 * w) := by
  induction w with
  | zero => intro u acc; simp [beBytesNat, Nat.mod_one]
  | succ w ih =>
      intro u acc
      rw [beBytesNat, List.foldl_cons, ih]
      have hdigit : u % 2 ^ (8 * (w + 1)) =
          (u / 2 ^ (8 * w)) % 256 * 2 ^ (8 * w) + u % 2 ^ (8 * w) := by
        have hmul : (2 : Nat) ^ (8 * (w + 1)) = 2 ^ (8 * w) * 256 := by
          rw [show 8 * (w + 1) = 8 * w + 8 from by ring, pow_add]
          norm_num
        rw [hmul, Nat.mod_mul]
        ring
      rw [hdigit]
      have hmul : (2 : Nat) ^ (8 * (w + 1)) = 2 ^ (8 * w) * 256 := by
        rw [show 8 * (w + 1) = 8 * w + 8 from by ring, pow_add]
        norm_num
      rw [hmul]
      ring

theorem fromBE_beBytesNat (w u : Nat) :
    fromBEBytes (beBytesNat w u) = u % 2 ^ (8 * w) := by
  rw [fromBEBytes, fromBE_beBytesNat_fold w u 0]
  simp

/-- Decoding the two's-complement big-endian bytes of an in-range value
recovers the value. -/
theorem beBytes_decode (w : Nat) (x : Int) (hw : 1 ≤ w)
    (hlo : -(2 ^ (8 * w - 1)) ≤ x) (hhi : x < 2 ^ (8 * w - 1)) :
    asSigned w (fromBEBytes (beBytes w x)) = x := by
  have hM : (2 : Int) ^ (8 * w) = 2 * 2 ^ (8 * w - 1) := by
    rw [← pow_succ']
    congr 1
    omega
  have hMpos : (0 : Int) < 2 ^ (8 * w) := by positivity
  rw [beBytes, fromBE_beBytesNat]
  have hmod : (x.emod (2 ^ (8 * w))).toNat % 2 ^ (8 * w) = (x.emod (2 ^ (8 * w))).toNat := by
    apply Nat.mod_eq_of_lt
    have h1 : x.emod (2 ^ (8 * w)) < 2 ^ (8 * w) := Int.emod_lt_of_pos x hMpos
    have h2 : (0 : Int) ≤ x.emod (2 ^ (8 * w)) := Int.emod_nonneg x (by positivity)
    have : ((x.emod (2 ^ (8 * w))).toNat : Int) < ((2 ^ (8 * w) : Nat) : Int) := by
      rw [Int.toNat_of_nonneg h2]
      push_cast
      exact h1
    exact_mod_cast this
  rw [hmod]
  by_cases hx : 0 ≤ x
  · have hemod : x.emod (2 ^ (8 * w)) = x := by
      apply Int.emod_eq_of_lt hx
      calc x < 2 ^ (8 * w - 1) := hhi
        _ ≤ 2 ^ (8 * w) := by
            apply pow_le_pow_right₀
            · norm_num
            · omega
    rw [hemod, asSigned]
    have hlt : x.toNat < 2 ^ (8 * w - 1) := by
      have : (x.toNat : Int) < ((2 ^ (8 * w - 1) : Nat) : Int) := by
        rw [Int.toNat_of_nonneg hx]
        push_cast
        exact hhi
      exact_mod_cast this
    rw [if_pos hlt, Int.toNat_of_nonneg hx]
  · push_neg at hx
    have hemod : x.emod (2 ^ (8 * w)) = x + 2 ^ (8 * w) := by
      have hrange : (0 : Int) ≤ x + 2 ^ (8 * w) := by
        have : -(2 ^ (8 * w)) ≤ x := by
          calc -(2 ^ (8 * w) : Int) ≤ -(2 ^ (8 * w - 1)) := by
                rw [neg_le_neg_iff]
                apply pow_le_pow_right₀
                · norm_num
                · omega
            _ ≤ x := hlo
        omega
      have hlt : x + 2 ^ (8 * w) < 2 ^ (8 * w) := by omega
      calc x.emod (2 ^ (8 * w)) = x % (2 ^ (8 * w)) := rfl
        _ = (x + 2 ^ (8 * w)) % (2 ^ (8 * w)) := Int.add_emod_self.symm
        _ = x + 2 ^ (8 * w) := Int.emod_eq_of_lt hrange hlt
    rw [hemod, asSigned]
    have hge : ¬((x + 2 ^ (8 * w)).toNat < 2 ^ (8 * w - 1)) := by
      have h2 : (0 : Int) ≤ x + 2 ^ (8 * w) := by
        have : -(2 ^ (8 * w)) ≤ x := by
          calc -(2 ^ (8 * w) : Int) ≤ -(2 ^ (8 * w - 1)) := by
                rw [neg_le_neg_iff]
                apply pow_le_pow_right₀
                · norm_num
                · omega
            _ ≤ x := hlo
        omega
      have hgeI : (2 : Int) ^ (8 * w - 1) ≤ x + 2 ^ (8 * w) := by
        have := hlo
        omega
      intro hcon
      have : ((x + 2 ^ (8 * w)).toNat : Int) < ((2 ^ (8 * w - 1) : Nat) : Int) := by
        exact_mod_cast hcon
      rw [Int.toNat_of_nonneg h2] at this
      push_cast at this
      omega
    rw [if_neg hge]
    have h2 : (0 : Int) ≤ x + 2 ^ (8 * w) := by
      have : -(2 ^ (8 * w)) ≤ x := by omega
      omega
    rw [Int.toNat_of_nonneg h2]
    ring

theorem asSigned_range (w u : Nat) (hw : 1 ≤ w) (hu : u < 2 ^ (8 * w)) :
    -(2 ^ (8 * w - 1)) ≤ asSigned w u ∧ asSigned w u < 2 ^ (8 * w - 1) := by
  have hMI : (2 : Int) ^ (8 * w) = 2 * 2 ^ (8 * w - 1) := by
    rw [← pow_succ']
    congr 1
    omega
  have huI : (u : Int) < 2 ^ (8 * w) := by exact_mod_cast hu
  rw [asSigned]
  by_cases h : u < 2 ^ (8 * w - 1)
  · rw [if_pos h]
    have hI : (u : Int) < 2 ^ (8 * w - 1) := by exact_mod_cast h
    have h0 : (0 : Int) ≤ (u : Int) := Int.natCast_nonneg u
    exact ⟨by omega, hI⟩
  · rw [if_neg h]
    push_neg at h
    have hI : (2 : Int) ^ (8 * w - 1) ≤ (u : Int) := by exact_mod_cast h
    exact ⟨by omega, by omega⟩

theorem fromBEBytes_lt (l : List Nat) (h : ∀ b ∈ l, b < 256) :
    fromBEBytes l < 2 ^ (8 * l.length) := by
  induction l using List.reverseRecOn with
  | nil => simp [fromBEBytes]
  | append_singleton t b ih =>
      have hb : b < 256 := h b (by simp)
      have ht : fromBEBytes t < 2 ^ (8 * t.length) := ih (fun c hc => h c (by simp [hc]))
      have happ : fromBEBytes (t ++ [b]) = fromBEBytes t * 256 + b := by
        rw [fromBEBytes, fromBEBytes, List.foldl_append]
        rfl
      have hpow : (2 : Nat) ^ (8 * (t ++ [b]).length) = 2 ^ (8 * t.length) * 256 := by
        rw [List.length_append, List.length_singleton,
          show 8 * (t.length + 1) = 8 * t.length + 8 from by ring, pow_add]
        norm_num
      rw [happ, hpow]
      omega

theorem write_varint_length_le_width (k : Nat) (hk : k = 1 ∨ k = 2 ∨ k = 4 ∨ k = 8)
    (y : Int) (hlo : -(2 ^ (8 * k - 1)) ≤ y) (hhi : y < 2 ^ (8 * k - 1)) :
    (write_varint y).length ≤ k + 1 := by
  rw [write_varint]
  rcases hk with rfl | rfl | rfl | rfl <;>
    norm_num at hlo hhi <;>
    split_ifs <;>
    simp [beBytes_length] <;>
    omega

/-- A decode step that consumed the tag byte plus a `k`-byte big-endian
payload out of `e2 ++ rest`, leaving exactly `rest`, decoded a value whose
own encoding is at most `k + 1` bytes wide. -/
theorem minimal_branch (x : Int) (e2 rest : List Nat) (k : Nat)
    (hk : k = 1 ∨ k = 2 ∨ k = 4 ∨ k = 8)
    (hbytes : ∀ b ∈ e2, b < 256)
    (hguard : k ≤ (e2 ++ rest).length)
    (hval : asSigned k (fromBEBytes ((e2 ++ rest).take k)) = x)
    (hdrop : (e2 ++ rest).drop k = rest) :
    (write_varint x).length ≤ e2.length + 1 := by
  have hlen : e2.length = k := by
    have hlcong := congrArg List.length hdrop
    simp only [List.length_drop, List.length_append] at hlcong
    simp only [List.length_append] at hguard
    omega
  have htake : (e2 ++ rest).take k = e2 := by
    rw [← hlen]
    exact List.take_left e2 rest
  have hu : fromBEBytes ((e2 ++ rest).take k) < 2 ^ (8 * k) := by
    rw [htake]
    have := fromBEBytes_lt e2 hbytes
    rwa [hlen] at this
  have hk1 : 1 ≤ k := by rcases hk with rfl | rfl | rfl | rfl <;> omega
  have hrange := asSigned_range k _ hk1 hu
  rw [hval] at hrange
  calc (write_varint x).length ≤ k + 1 :=
        write_varint_length_le_width k hk x hrange.1 hrange.2
    _ = e2.length + 1 := by omega

/-- A successful `read_varint` always consumes at least one byte. -/
theorem read_varint_consumes (stream : List Nat) (x : Int) (rest : List Nat)
    (h : read_varint stream = some (x, rest)) : rest.length < stream.length := by
  cases stream with
  | nil => simp [read_varint] at h
  | cons b r =>
      rw [read_varint] at h
      split_ifs at h <;>
        · simp only [Option.some.injEq, Prod.mk.injEq] at h
          have hl := congrArg List.length h.2
          simp only [List.length_drop, List.length_tail] at hl
          simp only [List.length_cons]
          omega

/-- Claim C7. Varint round-trip and minimality: for every signed 64-bit
value `x`, decoding the bytes written by `write_varint` (followed by any
trailing bytes) yields `x` and the trailing bytes; and among all the
encoding's forms — any byte sequence that `read_varint` decodes to `x`
consuming exactly that sequence — `write_varint` emits a minimum-width
one. -/
theorem varint_round_trip_minimal (x : Int)
    (hlo : -(2 ^ 63) ≤ x) (hhi : x < 2 ^ 63) :
    (∀ rest, read_varint (write_varint x ++ rest) = some (x, rest)) ∧
      (∀ e rest, (∀ b ∈ e, b < 256) → read_varint (e ++ rest) = some (x, rest) →
        (write_varint x).length ≤ e.length) := by
  constructor
  · intro rest
    rw [write_varint]
    by_cases h1 : 0 ≤ x ∧ x ≤ 250
    · rw [if_pos h1]
      show read_varint (x.toNat :: rest) = some (x, rest)
      rw [read_varint, if_pos (by omega)]
      rw [Int.toNat_of_nonneg h1.1]
    · rw [if_neg h1]
      by_cases h2 : -128 ≤ x ∧ x ≤ -1
      · rw [if_pos h2, List.cons_append, read_varint]
        rw [if_neg (by norm_num), if_neg (by norm_num), if_neg (by norm_num),
          if_neg (by norm_num), if_pos (by norm_num)]
        rw [if_pos (by simp [beBytes_length])]
        have ht : (beBytes 1 x ++ rest).take 1 = beBytes 1 x := by
          rw [← beBytes_length 1 x]
          exact List.take_left _ _
        have hd : (beBytes 1 x ++ rest).drop 1 = rest := by
          rw [← beBytes_length 1 x]
          exact List.drop_left _ _
        rw [ht, hd, beBytes_decode 1 x (by norm_num) (by norm_num; omega) (by norm_num; omega)]
      · rw [if_neg h2]
        by_cases h3 : 251 ≤ x ∧ x ≤ 32767
        · rw [if_pos h3, List.cons_append, read_varint]
          rw [if_neg (by norm_num), if_pos (by norm_num)]
          rw [if_pos (by simp [beBytes_length])]
          have ht : (beBytes 2 x ++ rest).take 2 = beBytes 2 x := by
            rw [← beBytes_length 2 x]
            exact List.take_left _ _
          have hd : (beBytes 2 x ++ rest).drop 2 = rest := by
            rw [← beBytes_length 2 x]
            exact List.drop_left _ _
          rw [ht, hd,
            beBytes_decode 2 x (by norm_num) (by norm_num; omega) (by norm_num; omega)]
        · rw [if_neg h3]
          by_cases h4 : -32768 ≤ x ∧ x ≤ -129
          · rw [if_pos h4, List.cons_append, read_varint]
            rw [if_neg (by norm_num), if_neg (by norm_num), if_neg (by norm_num),
              if_neg (by norm_num), if_neg (by norm_num)]
            rw [if_pos (by simp [beBytes_length])]
            have ht : (beBytes 2 x ++ rest).take 2 = beBytes 2 x := by
              rw [← beBytes_length 2 x]
              exact List.take_left _ _
            have hd : (beBytes 2 x ++ rest).drop 2 = rest := by
              rw [← beBytes_length 2 x]
              exact List.drop_left _ _
            rw [ht, hd,
              beBytes_decode 2 x (by norm_num) (by norm_num; omega) (by norm_num; omega)]
          · rw [if_neg h4]
            by_cases h5 : -2147483648 ≤ x ∧ x ≤ 2147483647
            · rw [if_pos h5, List.cons_append, read_varint]
              rw [if_neg (by norm_num), if_neg (by norm_num), if_pos (by norm_num)]
              rw [if_pos (by simp [beBytes_length])]
              have ht : (beBytes 4 x ++ rest).take 4 = beBytes 4 x := by
                rw [← beBytes_length 4 x]
                exact List.take_left _ _
              have hd : (beBytes 4 x ++ rest).drop 4 = rest := by
                rw [← beBytes_length 4 x]
                exact List.drop_left _ _
              rw [ht, hd,
                beBytes_decode 4 x (by norm_num) (by norm_num; omega) (by norm_num; omega)]
            · rw [if_neg h5, List.cons_append, read_varint]
              rw [if_neg (by norm_num), if_neg (by norm_num), if_neg (by norm_num),
                if_pos (by norm_num)]
              rw [if_pos (by simp [beBytes_length])]
              have ht : (beBytes 8 x ++ rest).take 8 = beBytes 8 x := by
                rw [← beBytes_length 8 x]
                exact List.take_left _ _
              have hd : (beBytes 8 x ++ rest).drop 8 = rest := by
                rw [← beBytes_length 8 x]
                exact List.drop_left _ _
              rw [ht, hd,
                beBytes_decode 8 x (by norm_num) (by norm_num; omega) (by norm_num; omega)]
  · intro e rest hbytes hdec
    cases e with
    | nil =>
        simp only [List.nil_append] at hdec
        exact absurd (read_varint_consumes rest x rest hdec) (by omega)
    | cons b e2 =>
        have hbytes2 : ∀ c ∈ e2, c < 256 := fun c hc => hbytes c (by simp [hc])
        rw [List.cons_append, read_varint] at hdec
        simp only [List.length_cons]
        by_cases hb1 : b ≤ 250
        · rw [if_pos hb1] at hdec
          simp only [Option.some.injEq, Prod.mk.injEq] at hdec
          have he2 : e2.length = 0 := by
            have := congrArg List.length hdec.2
            simp only [List.length_append] at this
            omega
          have hx : 0 ≤ x ∧ x ≤ 250 := by
            have := hdec.1
            omega
          rw [write_varint, if_pos hx]
          simp only [List.length_singleton]
          omega
        · rw [if_neg hb1] at hdec
          by_cases hb2 : b = 251
          · rw [if_pos hb2] at hdec
            by_cases hg : 2 ≤ (e2 ++ rest).length
            · rw [if_pos hg] at hdec
              simp only [Option.some.injEq, Prod.mk.injEq] at hdec
              exact minimal_branch x e2 rest 2 (by omega) hbytes2 hg hdec.1 hdec.2
            · rw [if_neg hg] at hdec
              exact absurd hdec (by simp)
          · rw [if_neg hb2] at hdec
            by_cases hb3 : b = 252
            · rw [if_pos hb3] at hdec
              by_cases hg : 4 ≤ (e2 ++ rest).length
              · rw [if_pos hg] at hdec
                simp only [Option.some.injEq, Prod.mk.injEq] at hdec
                exact minimal_branch x e2 rest 4 (by omega) hbytes2 hg hdec.1 hdec.2
              · rw [if_neg hg] at hdec
                exact absurd hdec (by simp)
            · rw [if_neg hb3] at hdec
              by_cases hb4 : b = 253
              · rw [if_pos hb4] at hdec
                by_cases hg : 8 ≤ (e2 ++ rest).length
                · rw [if_pos hg] at hdec
                  simp only [Option.some.injEq, Prod.mk.injEq] at hdec
                  exact minimal_branch x e2 rest 8 (by omega) hbytes2 hg hdec.1 hdec.2
                · rw [if_neg hg] at hdec
                  exact absurd hdec (by simp)
              · rw [if_neg hb4] at hdec
                by_cases hb5 : b = 254
                · rw [if_pos hb5] at hdec
                  by_cases hg : 1 ≤ (e2 ++ rest).length
                  · rw [if_pos hg] at hdec
                    simp only [Option.some.injEq, Prod.mk.injEq] at hdec
                    exact minimal_branch x e2 rest 1 (by omega) hbytes2 hg hdec.1 hdec.2
                  · rw [if_neg hg] at hdec
                    exact absurd hdec (by simp)
                · rw [if_neg hb5] at hdec
                  by_cases hg : 2 ≤ (e2 ++ rest).length
                  · rw [if_pos hg] at hdec
                    simp only [Option.some.injEq, Prod.mk.injEq] at hdec
                    exact minimal_branch x e2 rest 2 (by omega) hbytes2 hg hdec.1 hdec.2
                  · rw [if_neg hg] at hdec
                    exact absurd hdec (by simp)

/-- Witness for C7 at `x = -1000` (a 3-byte encoding). -/
theorem varint_round_trip_minimal_witness :
    (-(2 ^ 63) ≤ (-1000 : Int) ∧ (-1000 : Int) < 2 ^ 63) ∧
      ((∀ rest, read_varint (write_varint (-1000) ++ rest) = some (-1000, rest)) ∧
        (∀ e rest, (∀ b ∈ e, b < 256) → read_varint (e ++ rest) = some (-1000, rest) →
          (write_varint (-1000)).length ≤ e.length)) :=
  ⟨by norm_num, varint_round_trip_minimal (-1000) (by norm_num) (by norm_num)⟩

/-- Sanity: the encodings of the spec's example values decode to
themselves and use the expected widths. -/
example : read_varint (write_varint 100 ++ [7]) = some (100, [7]) := by decide

example : (write_varint 1000).length = 3 := by decide

/-! ## Multiplex framing (`src/protocol/multiplex.rs`, claim C8) -/

/-- The header word built by `MultiplexWriter::write`:
`((tag as u32) << 24) | (buf.len() as u32 & 0x00FFFFFF)`.  The two
operands occupy disjoint bits, so the bitwise-or is addition;
`16777216 = 2^24`. -/
def mplexHeader (tag len : Nat) : Nat :=
  tag * 16777216 + len % 16777216

/-- `write_u32::<BigEndian>`: the four big-endian bytes of a 32-bit
word. -/
def beBytes4 (h : Nat) : List Nat :=
  [h / 16777216 % 256, h / 65536 % 256, h / 256 % 256, h % 256]

/-- `MultiplexWriter::write` (src/protocol/multiplex.rs:83-101): an empty
write emits nothing; otherwise one frame — the 4-byte big-endian header
with tag `MPLEX_BASE + MSG_DATA = 7` and the masked length, followed by
the entire buffer (the writer performs no chunking). -/
def multiplex_write (buf : List Nat) : List Nat :=
  if buf.isEmpty then []
  else beBytes4 (mplexHeader (7 + 0) buf.length) ++ buf

/-- `read_u32::<BigEndian>` recomposition of the four header bytes. -/
def beHeaderVal (b0 b1 b2 b3 : Nat) : Nat :=
  b0 * 16777216 + b1 * 65536 + b2 * 256 + b3

/-- `MultiplexReader` driven to end of stream
(src/protocol/multiplex.rs:22-71): each `read_packet` parses a big-endian
header, takes `tag = header >> 24` (a `u8`) and
`length = header & 0x00FFFFFF`, reads `length` payload bytes, appends DATA
payloads (`tag.wrapping_sub(7) == 0`) to the output buffer, and surfaces
other tags as messages (producing no data).  An end of stream inside a
header or payload stops reading.  `fuel` bounds the number of packets; the
frame count is always enough. -/
def demuxData : Nat → List Nat → List Nat
  | 0, _ => []
  | fuel + 1, b0 :: b1 :: b2 :: b3 :: rest =>
      if beHeaderVal b0 b1 b2 b3 % 16777216 ≤ rest.length then
        if (beHeaderVal b0 b1 b2 b3 / 16777216 % 256 + 256 - 7) % 256 = 0 then
          rest.take (beHeaderVal b0 b1 b2 b3 % 16777216) ++
            demuxData fuel (rest.drop (beHeaderVal b0 b1 b2 b3 % 16777216))
        else demuxData fuel (rest.drop (beHeaderVal b0 b1 b2 b3 % 16777216))
      else []
  | _ + 1, _ => []

/-- The little-endian serialisation of a 32-bit word (what the spec's
"4-byte little-endian header" would put on the wire; compare
`MultiplexIO` in `multiplex_io.rs`, which uses `to_le_bytes`). -/
def leBytes4 (h : Nat) : List Nat :=
  [h % 256, h / 256 % 256, h / 65536 % 256, h / 16777216 % 256]

/-- Counterexample to C8 as stated: for the one-byte write `[42]`,
`MultiplexWriter::write` does **not** emit the 4-byte little-endian
serialisation of the packed header — the header goes out big-endian
(`[7, 0, 0, 1]`, not `[1, 0, 0, 7]`). -/
theorem multiplex_little_endian_cex :
    multiplex_write [42] ≠ leBytes4 (mplexHeader 7 1) ++ [42] := by decide

/-- Claim C8 (amended). Multiplex frame layout and reassembly: every
non-empty write of fewer than 2^24 bytes is emitted as a single frame — a
4-byte **big-endian** header carrying tag 7 in the top byte and the
payload length in the lower 24 bits, followed by the whole payload (the
writer does not chunk, so callers must keep writes below 2^24 bytes) —
and the reader reassembles the DATA frames of such a stream back into the
plain concatenated byte stream. -/
theorem multiplex_frame_layout_reassembly (frames : List (List Nat))
    (hne : ∀ f ∈ frames, f ≠ []) (hlen : ∀ f ∈ frames, f.length < 16777216) :
    (∀ f ∈ frames,
        multiplex_write f =
          [7, f.length / 65536 % 256, f.length / 256 % 256, f.length % 256] ++ f) ∧
      demuxData frames.length ((frames.map multiplex_write).flatten) = frames.flatten := by
  have hlayout : ∀ f : List Nat, f ≠ [] → f.length < 16777216 →
      multiplex_write f =
        [7, f.length / 65536 % 256, f.length / 256 % 256, f.length % 256] ++ f := by
    intro f hfne hflen
    rw [multiplex_write, if_neg (by simpa using hfne), beBytes4, mplexHeader]
    rw [Nat.mod_eq_of_lt hflen]
    have b0 : ((7 + 0) * 16777216 + f.length) / 16777216 % 256 = 7 := by omega
    have b1 : ((7 + 0) * 16777216 + f.length) / 65536 % 256 = f.length / 65536 % 256 := by
      omega
    have b2 : ((7 + 0) * 16777216 + f.length) / 256 % 256 = f.length / 256 % 256 := by
      omega
    have b3 : ((7 + 0) * 16777216 + f.length) % 256 = f.length % 256 := by omega
    rw [b0, b1, b2, b3]
  constructor
  · intro f hf
    exact hlayout f (hne f hf) (hlen f hf)
  · induction frames with
    | nil => rfl
    | cons f fs ih =>
        have hfne := hne f (by simp)
        have hflen := hlen f (by simp)
        simp only [List.map_cons, List.flatten_cons, List.length_cons]
        rw [hlayout f hfne hflen]
        simp only [List.cons_append, List.nil_append]
        rw [demuxData]
        have hv : beHeaderVal 7 (f.length / 65536 % 256) (f.length / 256 % 256)
            (f.length % 256) = 7 * 16777216 + f.length := by
          rw [beHeaderVal]
          omega
        rw [hv]
        have hmod : (7 * 16777216 + f.length) % 16777216 = f.length := by omega
        have htag : ((7 * 16777216 + f.length) / 16777216 % 256 + 256 - 7) % 256 = 0 := by
          omega
        rw [hmod, htag]
        rw [if_pos (by simp)]
        rw [if_pos rfl]
        rw [List.take_left, List.drop_left]
        rw [ih (fun g hg => hne g (by simp [hg])) (fun g hg => hlen g (by simp [hg]))]

/-- Witness for C8's amended theorem on two concrete frames. -/
theorem multiplex_frame_layout_reassembly_witness :
    ((∀ f ∈ [[10], [20, 30]], f ≠ ([] : List Nat)) ∧
        (∀ f ∈ [[10], [20, 30]], List.length f < 16777216)) ∧
      ((∀ f ∈ [[10], [20, 30]],
          multiplex_write f =
            [7, f.length / 65536 % 256, f.length / 256 % 256, f.length % 256] ++ f) ∧
        demuxData ([[10], [20, 30]] : List (List Nat)).length
            (([[10], [20, 30]].map multiplex_write).flatten) =
          ([[10], [20, 30]] : List (List Nat)).flatten) :=
  ⟨⟨by decide, by decide⟩,
    multiplex_frame_layout_reassembly [[10], [20, 30]] (by decide) (by decide)⟩

/-! ## Atomic placement (`Receiver::reconstruct_file`, claim C2) -/

/-- Filesystem paths as component lists. -/
abbrev FsPath := List String

/-- A flat filesystem: path to file contents. -/
def fsWrite (fs : FsPath → Option (List Nat)) (p : FsPath) (content : Option (List Nat)) :
    FsPath → Option (List Nat) :=
  fun q => if q = p then content else fs q

/-- The directory where the default (atomic) mode of
`Receiver::reconstruct_file` creates its temporary file:
`NamedTempFile::new_in(temp_dir)` when a temp dir was configured via
`with_temp_dir`, otherwise `NamedTempFile::new()` — which creates it in
the **system temp directory**, not next to the output file.
`Receiver::new` always leaves `temp_dir = None`. -/
def reconstruct_temp_dir (receiver_temp_dir : Option FsPath) (sys_temp_dir : FsPath) :
    FsPath :=
  match receiver_temp_dir with
  | some d => d
  | none => sys_temp_dir

/-- Parent directory of a path. -/
def parentDir (p : FsPath) : FsPath := p.dropLast

/-- The bytes one instruction of the reconstruction loop writes, or `none`
for the hard error "Matched block reference but no base file provided". -/
def instrBytes (base : Option (List Nat)) (B : Nat) : DeltaInstruction → Option (List Nat)
  | DeltaInstruction.MatchedBlock index =>
      match base with
      | some b => some ((b.drop (index * B)).take B)
      | none => none
  | DeltaInstruction.LiteralData data => some data

/-- The instruction-application loop of `Receiver::reconstruct_file`
with an injected I/O failure before instruction `failAt`: returns whether
the closure succeeded, and the bytes written to the temp file so far. -/
def runInstructions (base : Option (List Nat)) (B : Nat) :
    List DeltaInstruction → Option Nat → Nat → Bool × List Nat
  | [], _, _ => (true, [])
  | i :: rest, failAt, k =>
      if failAt = some k then (false, [])
      else
        match instrBytes base B i with
        | none => (false, [])
        | some bs =>
            ((runInstructions base B rest failAt (k + 1)).1,
              bs ++ (runInstructions base B rest failAt (k + 1)).2)

/-- `Receiver::reconstruct_file` in the default mode (neither in-place nor
partial), acting on a flat filesystem, mirroring receiver.rs lines
119-129: if the reconstruction closure succeeded, `std::fs::rename` the
temp file over the output — and if that rename itself fails (modelled by
`renameFails`, live e.g. as cross-device `EXDEV` because the temp defaults
to the system temp directory), the `?` operator propagates the error
**without** deleting the temp file; only when the closure failed (and
`--partial` is off) is the temp file removed.  Returns success and the
final filesystem. -/
def reconstruct_file_fs (fs : FsPath → Option (List Nat)) (tmp output : FsPath)
    (base : Option (List Nat)) (B : Nat) (delta : List DeltaInstruction)
    (failAt : Option Nat) (renameFails : Bool) : Bool × (FsPath → Option (List Nat)) :=
  if (runInstructions base B delta failAt 0).1 then
    if renameFails then
      (false, fsWrite fs tmp (some (runInstructions base B delta failAt 0).2))
    else
      (true,
        fsWrite
          (fsWrite (fsWrite fs tmp (some (runInstructions base B delta failAt 0).2)) tmp
            none)
          output (some (runInstructions base B delta failAt 0).2))
  else
    (false, fsWrite (fsWrite fs tmp (some (runInstructions base B delta failAt 0).2)) tmp none)

/-- Counterexample to C2 as stated: with the receiver's default
configuration (`temp_dir = None`), the temp file lands in the system temp
directory, whose parent differs from the output's directory — it is not a
"sibling temp file in the same directory as the output". -/
theorem atomic_temp_not_sibling_cex :
    parentDir (reconstruct_temp_dir none ["tmp"] ++ ["tmpfile0"]) ≠
      parentDir ["home", "user", "out.txt"] := by
  decide

theorem runInstructions_success (b : List Nat) (B : Nat) (delta : List DeltaInstruction) :
    ∀ k, runInstructions (some b) B delta none k = (true, reconstruct_bytes b B delta) := by
  induction delta with
  | nil => intro k; rfl
  | cons i rest ih =>
      intro k
      rw [runInstructions]
      rw [if_neg (by simp)]
      have hbs : instrBytes (some b) B i = some (apply_instruction b B i) := by
        cases i <;> rfl
      rw [hbs]
      rw [ih (k + 1)]
      simp [reconstruct_bytes]

/-- Claim C2 (amended). Atomic placement contract: in the default mode the
temp file is created in the receiver's temp directory (the system temp
directory by default — not a sibling of the output); on any error the
output path's contents are exactly the pre-operation contents; when the
reconstruction closure fails, the call fails and the temp file is
deleted; and on a failure-free reconstruction with a base file present,
either the rename succeeds — the call returns success, the output holds
exactly the reconstructed bytes and the temp path is gone — or the rename
fails, the error propagates and the temp file is **left behind** holding
the reconstructed bytes. -/
theorem reconstruct_atomic_contract (fs : FsPath → Option (List Nat)) (tmp output : FsPath)
    (base : Option (List Nat)) (B : Nat) (delta : List DeltaInstruction)
    (failAt : Option Nat) (renameFails : Bool) (hne : tmp ≠ output) :
    (∀ sys_temp_dir : FsPath, ∀ name : String,
        reconstruct_temp_dir none sys_temp_dir ++ [name] = sys_temp_dir ++ [name]) ∧
      ((reconstruct_file_fs fs tmp output base B delta failAt renameFails).1 = false →
        (reconstruct_file_fs fs tmp output base B delta failAt renameFails).2 output =
          fs output) ∧
      ((runInstructions base B delta failAt 0).1 = false →
        (reconstruct_file_fs fs tmp output base B delta failAt renameFails).1 = false ∧
          (reconstruct_file_fs fs tmp output base B delta failAt renameFails).2 tmp =
            none) ∧
      (failAt = none → ∀ b, base = some b →
        (renameFails = false →
          (reconstruct_file_fs fs tmp output base B delta failAt renameFails).1 = true ∧
            (reconstruct_file_fs fs tmp output base B delta failAt renameFails).2
                output = some (reconstruct_bytes b B delta) ∧
            (reconstruct_file_fs fs tmp output base B delta failAt renameFails).2 tmp =
              none) ∧
          (renameFails = true →
            (reconstruct_file_fs fs tmp output base B delta failAt renameFails).1 =
                false ∧
              (reconstruct_file_fs fs tmp output base B delta failAt renameFails).2
                  tmp = some (reconstruct_bytes b B delta) ∧
              (reconstruct_file_fs fs tmp output base B delta failAt renameFails).2
                  output = fs output)) := by
  have hne2 : output ≠ tmp := fun h => hne h.symm
  refine ⟨fun _ _ => rfl, ?_, ?_, ?_⟩
  · intro hfail
    rw [reconstruct_file_fs] at hfail ⊢
    by_cases hok : (runInstructions base B delta failAt 0).1 = true
    · rw [if_pos hok] at hfail ⊢
      cases renameFails with
      | false =>
          rw [if_neg (by simp)] at hfail
          simp at hfail
      | true =>
          rw [if_pos rfl]
          simp [fsWrite, hne2]
    · rw [if_neg hok]
      simp [fsWrite, hne2]
  · intro hrun
    rw [reconstruct_file_fs]
    rw [if_neg (by simp [hrun])]
    exact ⟨rfl, by simp [fsWrite]⟩
  · intro hfa b hb
    subst hfa
    subst hb
    rw [reconstruct_file_fs, runInstructions_success b B delta 0]
    refine ⟨?_, ?_⟩
    · intro hrf
      subst hrf
      rw [if_pos rfl, if_neg (by simp)]
      exact ⟨rfl, by simp [fsWrite], by simp [fsWrite, hne]⟩
    · intro hrf
      subst hrf
      rw [if_pos rfl, if_pos rfl]
      exact ⟨rfl, by simp [fsWrite], by simp [fsWrite, hne2]⟩

/-- Witness for C2's amended theorem at a concrete configuration with a
failing rename: the error propagates and the temp file survives with the
reconstructed bytes. -/
theorem reconstruct_atomic_contract_witness :
    (["tmp", "t1"] : FsPath) ≠ ["out.txt"] ∧
      ((∀ sys_temp_dir : FsPath, ∀ name : String,
          reconstruct_temp_dir none sys_temp_dir ++ [name] = sys_temp_dir ++ [name]) ∧
        ((reconstruct_file_fs (fun _ => none) ["tmp", "t1"] ["out.txt"]
              (some [1, 2, 3]) 2 [DeltaInstruction.MatchedBlock 0] none true).1 = false →
          (reconstruct_file_fs (fun _ => none) ["tmp", "t1"] ["out.txt"]
              (some [1, 2, 3]) 2 [DeltaInstruction.MatchedBlock 0] none true).2
              ["out.txt"] =
            (fun _ => (none : Option (List Nat))) ["out.txt"]) ∧
        ((runInstructions (some [1, 2, 3]) 2 [DeltaInstruction.MatchedBlock 0] none
              0).1 = false →
          (reconstruct_file_fs (fun _ => none) ["tmp", "t1"] ["out.txt"]
              (some [1, 2, 3]) 2 [DeltaInstruction.MatchedBlock 0] none true).1 =
              false ∧
            (reconstruct_file_fs (fun _ => none) ["tmp", "t1"] ["out.txt"]
                (some [1, 2, 3]) 2 [DeltaInstruction.MatchedBlock 0] none true).2
                ["tmp", "t1"] = none) ∧
        (none = (none : Option Nat) → ∀ b, some [1, 2, 3] = some b →
          (true = false →
            (reconstruct_file_fs (fun _ => none) ["tmp", "t1"] ["out.txt"]
                (some [1, 2, 3]) 2 [DeltaInstruction.MatchedBlock 0] none true).1 =
                true ∧
              (reconstruct_file_fs (fun _ => none) ["tmp", "t1"] ["out.txt"]
                  (some [1, 2, 3]) 2 [DeltaInstruction.MatchedBlock 0] none true).2
                  ["out.txt"] =
                some (reconstruct_bytes b 2 [DeltaInstruction.MatchedBlock 0]) ∧
              (reconstruct_file_fs (fun _ => none) ["tmp", "t1"] ["out.txt"]
                  (some [1, 2, 3]) 2 [DeltaInstruction.MatchedBlock 0] none true).2
                  ["tmp", "t1"] = none) ∧
            (true = true →
              (reconstruct_file_fs (fun _ => none) ["tmp", "t1"] ["out.txt"]
                  (some [1, 2, 3]) 2 [DeltaInstruction.MatchedBlock 0] none true).1 =
                  false ∧
                (reconstruct_file_fs (fun _ => none) ["tmp", "t1"] ["out.txt"]
                    (some [1, 2, 3]) 2 [DeltaInstruction.MatchedBlock 0] none true).2
                    ["tmp", "t1"] =
                  some (reconstruct_bytes b 2 [DeltaInstruction.MatchedBlock 0]) ∧
                (reconstruct_file_fs (fun _ => none) ["tmp", "t1"] ["out.txt"]
                    (some [1, 2, 3]) 2 [DeltaInstruction.MatchedBlock 0] none true).2
                    ["out.txt"] =
                  (fun _ => (none : Option (List Nat))) ["out.txt"]))) :=
  ⟨by decide,
    reconstruct_atomic_contract (fun _ => none) ["tmp", "t1"] ["out.txt"]
      (some [1, 2, 3]) 2 [DeltaInstruction.MatchedBlock 0] none true (by decide)⟩

/-! ## Sync idempotency (`LocalTransport::sync`, claim C9) -/

/-- A regular file as the sync model sees it: contents and modification
time; its size is `data.length`. -/
structure SrcFile where
  data : List Nat
  mtime : Int
deriving DecidableEq

/-- `HashMap::get` over an association list keyed by relative path. -/
def lookupFile (m : List (String × SrcFile)) (k : String) : Option SrcFile :=
  (m.find? (fun p => p.1 == k)).map Prod.snd

/-- Writing an entry: replaces the entry for the key (if any) and keeps
every other key's binding. -/
def upsertFile (m : List (String × SrcFile)) (k : String) (v : SrcFile) :
    List (String × SrcFile) :=
  (k, v) :: m.eraseP (fun p => p.1 == k)

/-- The `FileInfo` the scanner reports for a regular file. -/
def fileInfoOf (f : SrcFile) : FileInfo :=
  ⟨f.data.length, f.mtime, FileType.File⟩

/-- The destination digest argument fed to `should_sync`
(`compute_file_checksum` of the destination when it exists). -/
def destDigest (digest : List Nat → List Nat) : Option SrcFile → List Nat
  | some e => digest e.data
  | none => []

/-- The per-file loop of `LocalTransport::sync`
(src/transport/local.rs:226-313) restricted to regular files with the
default delete/backup/dry-run options off: decisions are made against the
destination map `dest0` scanned before the loop; a transfer writes the
source contents to the destination, whose new modification time is the
wall-clock time `now` of the run — neither `std::fs::copy` nor the
delta/reconstruct path preserves the source mtime anywhere in the driver.
Returns (`transferred_files`, final destination tree). -/
def sync_loop (opts : SyncOptions) (digest : List Nat → List Nat) (now : Int)
    (dest0 : List (String × SrcFile)) :
    List (String × SrcFile) → List (String × SrcFile) → Nat × List (String × SrcFile)
  | [], destAcc => (0, destAcc)
  | (name, s) :: rest, destAcc =>
      if should_sync opts (fileInfoOf s) ((lookupFile dest0 name).map fileInfoOf)
          (digest s.data) (destDigest digest (lookupFile dest0 name)) then
        ((sync_loop opts digest now dest0 rest
            (upsertFile destAcc name ⟨s.data, now⟩)).1 + 1,
          (sync_loop opts digest now dest0 rest
            (upsertFile destAcc name ⟨s.data, now⟩)).2)
      else sync_loop opts digest now dest0 rest destAcc

/-- One run of the sync driver over a source and destination tree. -/
def sync_run (opts : SyncOptions) (digest : List Nat → List Nat) (now : Int)
    (source dest : List (String × SrcFile)) : Nat × List (String × SrcFile) :=
  sync_loop opts digest now dest source dest

/-- Counterexample to C9 as stated: with the default comparison
(size and mtime), a source file with mtime 100 synced at time 200 lands in
the destination with mtime 200, so the second run re-transfers it — its
statistics report 1 transferred file, not 0. -/
theorem idempotent_sync_cex :
    (sync_run ⟨false, false, false⟩ (fun l => l) 300 [("f", ⟨[65], 100⟩)]
        (sync_run ⟨false, false, false⟩ (fun l => l) 200 [("f", ⟨[65], 100⟩)] []).2).1 ≠
      0 := by
  decide

theorem find?_eraseP_of_disjoint {α : Type} (p q : α → Bool) (m : List α)
    (hdisj : ∀ x, p x = true → q x = false) :
    (m.eraseP p).find? q = m.find? q := by
  induction m with
  | nil => rfl
  | cons a t ih =>
      cases hpa : p a with
      | true =>
          simp only [List.eraseP_cons, hpa, cond_true]
          rw [List.find?_cons_of_neg _ (by simp [hdisj a hpa])]
      | false =>
          simp only [List.eraseP_cons, hpa, cond_false]
          cases hqa : q a with
          | true =>
              rw [List.find?_cons_of_pos _ hqa, List.find?_cons_of_pos _ hqa]
          | false =>
              rw [List.find?_cons_of_neg _ (by simp [hqa]),
                List.find?_cons_of_neg _ (by simp [hqa]), ih]

theorem lookupFile_upsert_self (m : List (String × SrcFile)) (k : String) (v : SrcFile) :
    lookupFile (upsertFile m k v) k = some v := by
  rw [lookupFile, upsertFile, List.find?_cons_of_pos _ (by simp)]
  rfl

theorem lookupFile_upsert_other (m : List (String × SrcFile)) (k : String) (v : SrcFile)
    (n : String) (h : n ≠ k) :
    lookupFile (upsertFile m k v) n = lookupFile m n := by
  rw [lookupFile, upsertFile, List.find?_cons_of_neg _ (by simp [Ne.symm h])]
  rw [find?_eraseP_of_disjoint (fun p => p.1 == k) (fun p => p.1 == n) m]
  · rfl
  · intro x hx
    have hx2 : x.1 = k := by simpa using hx
    simp [hx2, Ne.symm h]

theorem sync_loop_preserves (opts : SyncOptions) (digest : List Nat → List Nat) (now : Int)
    (dest0 : List (String × SrcFile)) :
    ∀ (source : List (String × SrcFile)) (destAcc : List (String × SrcFile)) (n : String),
      n ∉ source.map Prod.fst →
      lookupFile (sync_loop opts digest now dest0 source destAcc).2 n =
        lookupFile destAcc n := by
  intro source
  induction source with
  | nil => intro destAcc n _; rfl
  | cons hd rest ih =>
      obtain ⟨m, sm⟩ := hd
      intro destAcc n hn
      have hnm : n ≠ m := by
        intro h
        exact hn (by simp [h])
      have hnrest : n ∉ rest.map Prod.fst := by
        intro h
        exact hn (by simp [h])
      rw [sync_loop]
      by_cases hdec : should_sync opts (fileInfoOf sm)
          ((lookupFile dest0 m).map fileInfoOf) (digest sm.data)
          (destDigest digest (lookupFile dest0 m)) = true
      · rw [if_pos hdec]
        simp only
        rw [ih (upsertFile destAcc m ⟨sm.data, now⟩) n hnrest,
          lookupFile_upsert_other _ _ _ _ hnm]
      · rw [if_neg hdec]
        exact ih destAcc n hnrest

theorem sync_loop_estab (opts : SyncOptions) (digest : List Nat → List Nat) (now : Int)
    (dest0 : List (String × SrcFile)) :
    ∀ (source destAcc : List (String × SrcFile)),
      (source.map Prod.fst).Nodup →
      (∀ n s, (n, s) ∈ source →
        should_sync opts (fileInfoOf s) ((lookupFile dest0 n).map fileInfoOf)
            (digest s.data) (destDigest digest (lookupFile dest0 n)) = false →
        ∃ e, lookupFile destAcc n = some e ∧ e.data.length = s.data.length) →
      ∀ n s, (n, s) ∈ source →
        ∃ e, lookupFile (sync_loop opts digest now dest0 source destAcc).2 n = some e ∧
          e.data.length = s.data.length := by
  intro source
  induction source with
  | nil => intro destAcc _ _ n s hmem; simp at hmem
  | cons hd rest ih =>
      obtain ⟨m, sm⟩ := hd
      intro destAcc hnodup hpre n s hmem
      have hnodup2 : (rest.map Prod.fst).Nodup := by
        simp only [List.map_cons, List.nodup_cons] at hnodup
        exact hnodup.2
      have hmnotin : m ∉ rest.map Prod.fst := by
        simp only [List.map_cons, List.nodup_cons] at hnodup
        exact hnodup.1
      rw [sync_loop]
      by_cases hdec : should_sync opts (fileInfoOf sm)
          ((lookupFile dest0 m).map fileInfoOf) (digest sm.data)
          (destDigest digest (lookupFile dest0 m)) = true
      · rw [if_pos hdec]
        simp only
        rcases List.mem_cons.mp hmem with heq | hmemr
        · injection heq with h1 h2
          subst h1
          subst h2
          rw [sync_loop_preserves opts digest now dest0 rest
            (upsertFile destAcc n ⟨s.data, now⟩) n hmnotin]
          rw [lookupFile_upsert_self]
          exact ⟨⟨s.data, now⟩, rfl, rfl⟩
        · refine ih (upsertFile destAcc m ⟨sm.data, now⟩) hnodup2 ?_ n s hmemr
          intro n2 s2 hmem2 hdec2
          have hn2m : n2 ≠ m := by
            intro h
            subst h
            exact hmnotin (List.mem_map.mpr ⟨(n2, s2), hmem2, rfl⟩)
          rw [lookupFile_upsert_other _ _ _ _ hn2m]
          exact hpre n2 s2 (by simp [hmem2]) hdec2
      · rw [if_neg hdec]
        rcases List.mem_cons.mp hmem with heq | hmemr
        · injection heq with h1 h2
          subst h1
          subst h2
          rw [sync_loop_preserves opts digest now dest0 rest destAcc n hmnotin]
          exact hpre n s (by simp) (by simpa using hdec)
        · refine ih destAcc hnodup2 ?_ n s hmemr
          intro n2 s2 hmem2 hdec2
          exact hpre n2 s2 (by simp [hmem2]) hdec2

theorem sync_loop_zero (opts : SyncOptions) (digest : List Nat → List Nat) (now : Int)
    (dest0 : List (String × SrcFile)) (hso : opts.size_only = true)
    (hupd : opts.update = false) :
    ∀ (source destAcc : List (String × SrcFile)),
      (∀ n s, (n, s) ∈ source →
        ∃ e, lookupFile dest0 n = some e ∧ e.data.length = s.data.length) →
      (sync_loop opts digest now dest0 source destAcc).1 = 0 := by
  intro source
  induction source with
  | nil => intro destAcc _; rfl
  | cons hd rest ih =>
      obtain ⟨m, sm⟩ := hd
      intro destAcc hpre
      obtain ⟨e, he, hlen⟩ := hpre m sm (by simp)
      rw [sync_loop, if_neg ?_]
      · exact ih destAcc (fun n s h => hpre n s (by simp [h]))
      · rw [he]
        simp [should_sync, fileInfoOf, hso, hupd, hlen]

/-- Claim C9 (amended). Idempotent sync under a comparison that the
transfer actually preserves: with `--size-only` (and `--update` off), a
second run of the sync driver over an unchanged source transfers zero
files.  With the default size+mtime comparison, idempotency fails because
the driver never preserves modification times (see the counterexample). -/
theorem idempotent_sync_size_only (opts : SyncOptions) (digest : List Nat → List Nat)
    (now1 now2 : Int) (source dest : List (String × SrcFile))
    (hso : opts.size_only = true) (hupd : opts.update = false)
    (hnodup : (source.map Prod.fst).Nodup) :
    (sync_run opts digest now2 source (sync_run opts digest now1 source dest).2).1 = 0 := by
  rw [sync_run, sync_run]
  have hpre0 : ∀ n s, (n, s) ∈ source →
      should_sync opts (fileInfoOf s) ((lookupFile dest n).map fileInfoOf)
          (digest s.data) (destDigest digest (lookupFile dest n)) = false →
      ∃ e, lookupFile dest n = some e ∧ e.data.length = s.data.length := by
    intro n s hmem hdec
    cases hle : lookupFile dest n with
    | none =>
        rw [hle] at hdec
        simp [should_sync] at hdec
    | some e =>
        rw [hle] at hdec
        refine ⟨e, rfl, ?_⟩
        simp [should_sync, fileInfoOf, hso, hupd, bne_iff_ne] at hdec
        omega
  have hP := sync_loop_estab opts digest now1 dest source dest hnodup hpre0
  exact sync_loop_zero opts digest now2
    (sync_loop opts digest now1 dest source dest).2 hso hupd source
    (sync_loop opts digest now1 dest source dest).2
    (fun n s h => hP n s h)

/-- Witness for C9's amended theorem: a one-file source synced twice under
`--size-only`. -/
theorem idempotent_sync_size_only_witness :
    ((⟨false, true, false⟩ : SyncOptions).size_only = true ∧
        (⟨false, true, false⟩ : SyncOptions).update = false ∧
        (([("f", ⟨[65], 100⟩)] : List (String × SrcFile)).map Prod.fst).Nodup) ∧
      (sync_run ⟨false, true, false⟩ (fun l => l) 300 [("f", ⟨[65], 100⟩)]
          (sync_run ⟨false, true, false⟩ (fun l => l) 200 [("f", ⟨[65], 100⟩)] []).2).1 =
        0 :=
  ⟨⟨rfl, rfl, by decide⟩,
    idempotent_sync_size_only ⟨false, true, false⟩ (fun l => l) 200 300
      [("f", ⟨[65], 100⟩)] [] rfl rfl (by decide)⟩

end YARW
